import Mathlib

/-!
Verification development for the md2jira repository.

The Lean definitions below are shallow embeddings of the Python source:
pure string manipulation becomes functions on List Char / String, the
stateful sync phases become explicit state passing, HTTP effects become
traces of call descriptions, and fallible code returns Option / Except.
Each definition is named after the Python function or class it embeds.
-/

namespace Md2Jira

/-! ## Generic string helpers (Python primitives) -/

/-- Python whitespace test for the ASCII fragment used by str.split /
str.strip (space, tab, carriage return, newline). -/
def isWs (c : Char) : Bool := c = ' ' || c = '\t' || c = '\r' || c = '\n'

/-- Python lower() on a character (ASCII). -/
def pyLowerChar (c : Char) : Char := c.toLower

/-- Python s.lower() over a character list. -/
def pyLower (l : List Char) : List Char := l.map pyLowerChar

/-- Python substring containment (the in operator): needle occurs
contiguously in hay. -/
def subStr : List Char → List Char → Bool
  | n, [] => n.isEmpty
  | n, c :: t => n.isPrefixOf (c :: t) || subStr n t

/-- Python s.split() with no separator: maximal runs of non-whitespace
characters, with the accumulator kept reversed. -/
def pySplitAux (cur : List Char) : List Char → List (List Char)
  | [] => if cur.isEmpty then [] else [cur.reverse]
  | c :: t =>
    if isWs c then
      if cur.isEmpty then pySplitAux [] t else cur.reverse :: pySplitAux [] t
    else pySplitAux (c :: cur) t

/-- Python s.split(). -/
def pySplit (l : List Char) : List (List Char) := pySplitAux [] l

/-- Python sep.join(parts) for a one-space separator followed by split,
i.e. whitespace collapsing. -/
def collapseWs (l : List Char) : List Char := List.intercalate [' '] (pySplit l)

/-- Python s.split(chr(10)): split on newline characters only, keeping
empty parts. -/
def splitNlAux (cur : List Char) : List Char → List (List Char)
  | [] => [cur.reverse]
  | c :: t => if c = '\n' then cur.reverse :: splitNlAux [] t else splitNlAux (c :: cur) t

/-- Python s.split on newlines. -/
def splitNl (l : List Char) : List (List Char) := splitNlAux [] l

/-! ## C1: story id acceptance (spectra flexible-id parsers)

The spectra MarkdownParser / YamlParser / JsonParser sources are not part
of src; only their tests (tests/adapters/test_flexible_id_prefixes.py)
and the TolerantPatterns regex they build on are.  The id-acceptance rule
below is therefore modelled from the spec. -/

/-- Uppercase ASCII letter, the character class A-Z of the story-header
pattern. -/
def isUpperAlpha (c : Char) : Bool := 65 ≤ c.toNat && c.toNat ≤ 90

/-- ASCII digit, the character class 0-9 of the story-header pattern. -/
def isDigitCh (c : Char) : Bool := 48 ≤ c.toNat && c.toNat ≤ 57

/-- ASCII letter (either case). -/
def isAlphaCh (c : Char) : Bool :=
  (65 ≤ c.toNat && c.toNat ≤ 90) || (97 ≤ c.toNat && c.toNat ≤ 122)

/-- ASCII lowercase letter. -/
def isLowerAlpha (c : Char) : Bool := 97 ≤ c.toNat && c.toNat ≤ 122

/-- ASCII alphanumeric character. -/
def isAlnumCh (c : Char) : Bool := isAlphaCh c || isDigitCh c

/-- Modelled from the spec: the normative id-prefix rule of parse_stories
(section 4.1 item 5), implemented by the spectra parsers that are absent
from src.  Accepted forms are an uppercase-only letter prefix, a hyphen
and digits, or a hash sign followed by digits; everything else is
rejected. -/
def acceptsStoryId (l : List Char) : Bool :=
  match l with
  | '#' :: rest => !rest.isEmpty && rest.all isDigitCh
  | _ =>
    let pre := l.takeWhile isUpperAlpha
    match l.drop pre.length with
    | '-' :: num => !pre.isEmpty && !num.isEmpty && num.all isDigitCh
    | _ => false

/-- A candidate story block: the id text of its header, the title, and
the body. -/
structure StoryBlock where
  idText : List Char
  title : List Char
  body : List Char

/-- A parsed story as far as C1 is concerned: the id string and title. -/
structure SpecStory where
  id : List Char
  title : List Char
deriving DecidableEq

/-- Modelled from the spec: parse_stories of the flexible-id parsers
recognizes a block as a story exactly when its header id satisfies the
id-prefix rule, and returns the id text unchanged. -/
def specParseStories (blocks : List StoryBlock) : List SpecStory :=
  blocks.filterMap fun b =>
    if acceptsStoryId b.idText then some ⟨b.idText, b.title⟩ else none

/-! ## Python dict with string keys (insertion order, last value wins) -/

/-- Python dict assignment d[k] = v: replace in place when the key is
present, append otherwise. -/
def dictInsert {α : Type} (d : List (String × α)) (k : String) (v : α) :
    List (String × α) :=
  if d.any (fun p => p.1 == k) then
    d.map (fun p => if p.1 == k then (k, v) else p)
  else d ++ [(k, v)]

/-- Python dict lookup d[k] / k in d. -/
def dictLookup {α : Type} (d : List (String × α)) (k : String) : Option α :=
  (d.find? (fun p => p.1 == k)).map (·.2)

/-- Python dict comprehension over a pair list. -/
def pyDict {α : Type} (pairs : List (String × α)) : List (String × α) :=
  pairs.foldl (fun d p => dictInsert d p.1 p.2) []

/-- Python s.lower() on a String. -/
def pyLowerStr (s : String) : String := String.mk (pyLower s.toList)

/-! ## C2: subtask matching (orchestrator._sync_subtasks and the legacy
engine's analyze / sync Phase 2) -/

/-- A remote subtask as consumed by the subtask phases. -/
structure RemoteSubtask where
  key : String
  summary : String
  status : String

/-- What _sync_subtasks decides to do with one local subtask. -/
inductive SubtaskAction where
  | update (existingKey : String)
  | create
deriving DecidableEq

/-- SyncOrchestrator._sync_subtasks, decision for one local subtask:
existing remote subtasks are keyed by lowercased summary and the local
subtask is updated exactly when its lowercased name is a key of that
dict, created otherwise (orchestrator.py lines 306-346). -/
def orchestratorSubtaskAction (name : String) (subtasks : List RemoteSubtask) :
    SubtaskAction :=
  match dictLookup (pyDict (subtasks.map fun st => (pyLowerStr st.summary, st)))
      (pyLowerStr name) with
  | some st => .update st.key
  | none => .create

/-- JiraSyncEngine.analyze / sync Phase 2 presence test (md2jira.py lines
1049-1054 and 1128-1129): the local name is lowercased, truncated to 30
characters, and compared by two-way substring containment against the
lowercased remote summaries. -/
def legacySubtaskAlreadyPresent (name : List Char) (summaries : List (List Char)) :
    Bool :=
  (summaries.map pyLower).any fun s =>
    subStr ((pyLower name).take 30) s || subStr s (pyLower name)

/-- JiraSyncEngine.sync Phase 2 (md2jira.py lines 1127-1137): the names
for which create_subtask is invoked; subtasks that pass the presence test
are skipped, and no update is issued in this phase. -/
def legacyPhase2Creates (subtaskNames : List (List Char))
    (summaries : List (List Char)) : List (List Char) :=
  subtaskNames.filter fun nm => !(legacySubtaskAlreadyPresent nm summaries)

/-! ## C4 / C5: title normalization and story matching (md2jira.py) -/

/-- Python regex word character (the class backslash-w), ASCII fragment:
letters, digits and underscore. -/
def pyIsWordChar (c : Char) : Bool := isAlnumCh c || c = '_'

/-- re.sub with pattern class complement of word-or-space, replacement
one space: every character that is neither a word character nor
whitespace becomes a space (md2jira.py line 218 and 238). -/
def punctToSpace (l : List Char) : List Char :=
  l.map fun c => if pyIsWordChar c || isWs c then c else ' '

/-- re.sub of the anchored pattern whitespace-(future)-whitespace-end
with empty replacement, applied to the already lowercased title
(md2jira.py line 216): drop trailing whitespace, then a literal
(future), then the whitespace before it; leave the string unchanged when
the literal is absent. -/
def stripFutureSuffix (l : List Char) : List Char :=
  let r := (l.reverse).dropWhile isWs
  let fut := (String.toList "(future)").reverse
  if fut.isPrefixOf r then ((r.drop fut.length).dropWhile isWs).reverse else l

/-- The legacy markdown-side story record, the fields matching uses. -/
structure UserStoryL where
  id : String
  title : String

/-- The legacy Jira-side issue record, the fields matching uses. -/
structure JiraIssueL where
  key : String
  summary : String

/-- UserStory.normalize_title (md2jira.py lines 212-220): lowercase,
strip the trailing (future) suffix, send punctuation to spaces, collapse
whitespace. -/
def UserStoryL.normalize_title (s : UserStoryL) : String :=
  String.mk (collapseWs (punctToSpace (stripFutureSuffix (pyLower s.title.toList))))

/-- JiraIssue.normalize_title (md2jira.py lines 234-240): same pipeline
without the (future) stripping. -/
def JiraIssueL.normalize_title (j : JiraIssueL) : String :=
  String.mk (collapseWs (punctToSpace (pyLower j.summary.toList)))

/-- The containment fallback of _match_stories (md2jira.py lines
1000-1003): scan the title dict in order and take the first entry whose
key contains or is contained in the local normalized title. -/
def findFirstContain (norm : String) (dict : List (String × JiraIssueL)) :
    Option JiraIssueL :=
  (dict.find? fun p =>
    subStr norm.toList p.1.toList || subStr p.1.toList norm.toList).map (·.2)

/-- The per-story selection of _match_stories (md2jira.py lines
993-1003): the exact normalized-title entry if present, else the first
containment entry of the title dict. -/
def legacyMatchFor (jira_by_title : List (String × JiraIssueL))
    (md : UserStoryL) : Option JiraIssueL :=
  match dictLookup jira_by_title md.normalize_title with
  | some j => some j
  | none => findFirstContain md.normalize_title jira_by_title

/-- JiraSyncEngine._match_stories (md2jira.py lines 984-1005), recording
issue keys: build the normalized-title dict over the remote issues, then
assign each local story its selected issue; unmatched stories record
nothing. -/
def legacy_match_stories (mds : List UserStoryL) (jiras : List JiraIssueL) :
    List (String × String) :=
  let jira_by_title := pyDict (jiras.map fun j => (j.normalize_title, j))
  mds.foldl
    (fun ms md =>
      match legacyMatchFor jira_by_title md with
      | some j => dictInsert ms md.id j.key
      | none => ms)
    []

/-- Following the words of claim C4, for comparison with the source
normalizer: replace all non-alphanumeric runs with spaces (underscore
included, since underscore is not alphanumeric). -/
def claimNormalizeTitle (s : String) : String :=
  String.mk (collapseWs
    ((stripFutureSuffix (pyLower s.toList)).map
      fun c => if isAlnumCh c || isWs c then c else ' '))

/-- Maximal word-character runs of a character list, accumulator kept
reversed: the words formulation of the normalizer used to state the
amended C4. -/
def wordCharRunsAux (cur : List Char) : List Char → List (List Char)
  | [] => if cur.isEmpty then [] else [cur.reverse]
  | c :: t =>
    if pyIsWordChar c then wordCharRunsAux (c :: cur) t
    else if cur.isEmpty then wordCharRunsAux [] t
    else cur.reverse :: wordCharRunsAux [] t

/-- Maximal word-character runs. -/
def wordCharRuns (l : List Char) : List (List Char) := wordCharRunsAux [] l

/-- The amended C4 normalizer, stated independently of the source
pipeline: lowercase, strip the trailing (future), then join the maximal
runs of word characters (letters, digits, underscore) with single
spaces. -/
def amendedNormalizeTitle (s : String) : String :=
  String.mk (List.intercalate [' '] (wordCharRuns (stripFutureSuffix (pyLower s.toList))))

/-- The amended C4 normalizer for remote summaries: same words
formulation without the (future) stripping. -/
def amendedNormalizeSummary (s : String) : String :=
  String.mk (List.intercalate [' '] (wordCharRuns (pyLower s.toList)))

/-- Title relation justifying an assignment in the legacy matcher: equal
normalized titles or two-way substring containment. -/
def titleRelated (md : UserStoryL) (j : JiraIssueL) : Prop :=
  md.normalize_title = j.normalize_title ∨
  subStr md.normalize_title.toList j.normalize_title.toList = true ∨
  subStr j.normalize_title.toList md.normalize_title.toList = true

/-! ## Shared port data (IssueData mirrors the tracker port record) -/

/-- Modelled from the spec: IssueData, the remote-side mirror record of
the issue-tracker port (core/ports/issue_tracker.py is not under src;
spec section 3 gives its shape: key, summary, description, status text,
issue type text, ordered subtasks of the same shape). -/
inductive IssueData where
  | mk (key summary : String) (description : Option String)
      (status issue_type : String) (subtasks : List IssueData)

def IssueData.key : IssueData → String
  | .mk k _ _ _ _ _ => k

def IssueData.summary : IssueData → String
  | .mk _ s _ _ _ _ => s

def IssueData.descriptionOf : IssueData → Option String
  | .mk _ _ d _ _ _ => d

def IssueData.status : IssueData → String
  | .mk _ _ _ st _ _ => st

def IssueData.subtasks : IssueData → List IssueData
  | .mk _ _ _ _ _ sub => sub

/-! ## C3: dry-run guards of JiraApiClient / JiraAdapter and analyze
counts -/

/-- Python s.endswith(suffix). -/
def pyEndswith (s suffix : String) : Bool := suffix.toList.isSuffixOf s.toList

/-- JiraApiClient.post (client.py lines 101-106): in dry-run the request
is skipped, and an empty response returned, unless the endpoint ends
with the eleven-character suffix slash-search-slash-jql. -/
def postPerformsRequest (dry_run : Bool) (endpoint : String) : Bool :=
  !(dry_run && !(pyEndswith endpoint "/search/jql"))

/-- JiraApiClient.put (client.py lines 108-113): skipped in dry-run. -/
def putPerformsRequest (dry_run : Bool) : Bool := !dry_run

/-- JiraApiClient.delete (client.py lines 115-120): skipped in dry-run. -/
def deletePerformsRequest (dry_run : Bool) : Bool := !dry_run

/-- JiraApiClient.search_jql posts to the endpoint search/jql with no
leading slash (client.py lines 178-192); when the post is skipped the
empty response carries no issues list. The remote parameter stands for
the issues the live search would return. -/
def search_jql_issues (dry_run : Bool) (remote : List IssueData) : List IssueData :=
  if postPerformsRequest dry_run "search/jql" then remote else []

/-- JiraAdapter.get_epic_children (adapter.py lines 98-108): the
children are whatever the jql search response lists. -/
def get_epic_children (dry_run : Bool) (remote : List IssueData) : List IssueData :=
  search_jql_issues dry_run remote

/-- A markdown story as the orchestrator's matcher sees it. -/
structure UserStoryO where
  id : String
  title : String

/-- SyncOrchestrator._match_stories (orchestrator.py lines 236-257),
with the missing UserStory.matches_title entity method abstracted as a
parameter: for each story take the first issue whose summary matches,
else record the story as unmatched. -/
def orchestrator_match_stories (matchesTitle : UserStoryO → String → Bool)
    (mds : List UserStoryO) (jiras : List IssueData) :
    List (String × String) × List String :=
  mds.foldl
    (fun acc md =>
      match jiras.find? (fun j => matchesTitle md j.summary) with
      | some j => (dictInsert acc.1 md.id j.key, acc.2)
      | none => (acc.1, acc.2 ++ [md.id]))
    ([], [])

/-- SyncOrchestrator.analyze counts (orchestrator.py lines 104-132 and
257): stories_matched is the size of the match table, and the unmatched
list collects the rest; the children come through the dry-run-guarded
search. -/
def orchestrator_analyze_counts (matchesTitle : UserStoryO → String → Bool)
    (dry_run : Bool) (mds : List UserStoryO) (remote : List IssueData) :
    Nat × Nat :=
  let children := get_epic_children dry_run remote
  let r := orchestrator_match_stories matchesTitle mds children
  (r.1.length, r.2.length)

/-- A one-story, one-issue scenario used to evaluate analyze at the
dry-run failing input. -/
def demoStory : UserStoryO := ⟨"US-001", "Add login"⟩

/-- The remote issue of the demo scenario. -/
def demoIssue : IssueData := .mk "J-1" "Add login" none "Open" "Story" []

/-- A concrete title matcher for the demo scenario: exact summary
equality. -/
def demoTitleMatch (md : UserStoryO) (summary : String) : Bool :=
  md.title == summary

/-- A tracker mutation call description. -/
inductive TrackerCall where
  | post (endpoint : String)
  | put (endpoint : String)
  | del (endpoint : String)
deriving DecidableEq

/-- JiraAdapter.update_issue_description (adapter.py lines 133-151):
dry-run reports success without a call, live puts the new
description. -/
def update_issue_description (dry_run : Bool) (issue_key : String) :
    Bool × List TrackerCall :=
  if dry_run then (true, [])
  else (true, [.put ("issue/" ++ issue_key)])

/-- JiraAdapter.create_subtask (adapter.py lines 153-192): dry-run
reports no key and performs no call, live posts the new issue; the key
of the created issue comes from the response. -/
def create_subtask (dry_run : Bool) (responseKey : Option String) :
    Option String × List TrackerCall :=
  if dry_run then (none, [])
  else (responseKey, [.post "issue"])

/-- JiraAdapter.update_subtask (adapter.py lines 194-222): dry-run
reports success without a call, live puts the changed fields when any
are present. -/
def update_subtask (dry_run : Bool) (issue_key : String) (hasFields : Bool) :
    Bool × List TrackerCall :=
  if dry_run then (true, [])
  else (true, if hasFields then [.put ("issue/" ++ issue_key)] else [])

/-- JiraAdapter.add_comment (adapter.py lines 224-237): dry-run reports
success without a call, live posts the comment. -/
def add_comment (dry_run : Bool) (issue_key : String) : Bool × List TrackerCall :=
  if dry_run then (true, [])
  else (true, [.post ("issue/" ++ issue_key ++ "/comment")])

/-- Modelled from the spec: every mutating command object, when dry-run
is active, performs no network call and reports success with a dry-run
flag on its result (the commands package under application/commands is
not in src; its tests assert exactly this). -/
structure CommandResult where
  success : Bool
  data : Option String := none
  error : Option String := none
  dry_run : Bool := false
  skipped : Bool := false

/-- Modelled from the spec: the result every mutating command returns in
dry-run mode. -/
def commandDryRunResult : CommandResult :=
  { success := true, dry_run := true }

/-! ## C6: the status transition state machine
(JiraAdapter.transition_issue, adapter.py lines 239-277) -/

/-- The transition table selection (adapter.py lines 249-266): keyword
containment tests on the lowercased target pick a path of
(expected from-status, transition id, optional resolution) steps; an
unrecognized target yields no path. -/
def transitionPathFor (target : String) : Option (List (String × String × Option String)) :=
  let t := (pyLowerStr target).toList
  if subStr (String.toList "resolved") t || subStr (String.toList "done") t then
    some [("Analyze", "7", none), ("Open", "4", none), ("In Progress", "5", some "Done")]
  else if subStr (String.toList "progress") t then
    some [("Analyze", "7", none), ("Open", "4", none)]
  else if subStr (String.toList "open") t then
    some [("Analyze", "7", none)]
  else none

/-- One applied transition, recording the re-fetched status at that
step. -/
structure AppliedStep where
  preStatus : String
  fromStatus : String
  transitionId : String
  resolution : Option String
deriving DecidableEq

/-- The traversal loop (adapter.py lines 269-273): at each step the
current status is re-read and the transition posted only when it equals
the expected from-status; apply gives the tracker's state change for a
posted transition. -/
def runTransitionPath (apply : String → String → Option String → String) :
    String → List (String × String × Option String) → String × List AppliedStep
  | status, [] => (status, [])
  | status, (frm, tid, res) :: rest =>
    if status == frm then
      let next := runTransitionPath apply (apply status tid res) rest
      (next.1, ⟨status, frm, tid, res⟩ :: next.2)
    else runTransitionPath apply status rest

/-- JiraAdapter.transition_issue in live mode (adapter.py lines
244-277): immediate success when the current status already equals the
target case-insensitively; failure for an unrecognized target; otherwise
run the path and declare success when the lowercased target occurs in
the lowercased re-fetched final status. -/
def transition_issue (apply : String → String → Option String → String)
    (current target : String) : Bool × String × List AppliedStep :=
  if pyLowerStr current == pyLowerStr target then (true, current, [])
  else
    match transitionPathFor target with
    | none => (false, current, [])
    | some path =>
      let r := runTransitionPath apply current path
      (subStr (pyLowerStr target).toList (pyLowerStr r.1).toList, r.1, r.2)

/-- The dry-run guard of JiraAdapter.transition_issue (adapter.py lines
240-242): report success before fetching anything or posting any
step. -/
def adapter_transition_issue (dry_run : Bool)
    (live : Bool × String × List AppliedStep) : Bool × List AppliedStep :=
  if dry_run then (true, []) else (live.1, live.2.2)

/-- A constant state change used as concrete input in refutations. -/
def idApply (s : String) (_tid : String) (_res : Option String) : String := s

/-- A concrete tracker state change realizing the documented workflow,
used to evaluate the traversal on a concrete run. -/
def demoJiraApply (s : String) (tid : String) (_res : Option String) : String :=
  if s == "Analyze" && tid == "7" then "Open"
  else if s == "Open" && tid == "4" then "In Progress"
  else if s == "In Progress" && tid == "5" then "Resolved"
  else s

/-! ## C7: SyncResult and the per-item error recording of the status
phase (orchestrator.py lines 28-56 and 387-421) -/

/-- Domain Status enum; is_complete is modelled from the spec (the
enums module is not under src): only DONE counts as complete. -/
inductive Status where
  | DONE
  | IN_PROGRESS
  | PLANNED
deriving DecidableEq

def Status.is_complete : Status → Bool
  | .DONE => true
  | _ => false

/-- SyncResult (orchestrator.py lines 28-56). -/
structure SyncResult where
  success : Bool := true
  dry_run : Bool := true
  stories_matched : Nat := 0
  stories_updated : Nat := 0
  subtasks_created : Nat := 0
  subtasks_updated : Nat := 0
  comments_added : Nat := 0
  statuses_updated : Nat := 0
  matched_stories : List (String × String) := []
  unmatched_stories : List String := []
  errors : List String := []
  warnings : List String := []

/-- SyncResult.add_error: append the message and flip success off. -/
def SyncResult.add_error (r : SyncResult) (e : String) : SyncResult :=
  { r with errors := r.errors ++ [e], success := false }

/-- SyncResult.add_warning: append the message only. -/
def SyncResult.add_warning (r : SyncResult) (w : String) : SyncResult :=
  { r with warnings := r.warnings ++ [w] }

/-- The operations a sync run performs on its SyncResult error state. -/
inductive SROp where
  | err (m : String)
  | warn (m : String)

def applySROp (r : SyncResult) : SROp → SyncResult
  | .err m => r.add_error m
  | .warn m => r.add_warning m

def applySROps (r : SyncResult) (ops : List SROp) : SyncResult :=
  ops.foldl applySROp r

/-- The skip set of the status phase (orchestrator.py line 406): a
remote subtask already resolved, done or closed (lowercased equality) is
left alone. -/
def statusNeedsTransition (status : String) : Bool :=
  !(pyLowerStr status == "resolved" || pyLowerStr status == "done" ||
    pyLowerStr status == "closed")

/-- The fields of a story the status phase reads. -/
structure StoryRec where
  id : String
  status : Status

/-- Per-subtask step of _sync_statuses (orchestrator.py lines 409-421):
execute the transition command and either count the success or record
the error, when one is reported, then continue. The outcome oracle
stands for TransitionStatusCommand.execute. -/
def syncStatusStep (outcome : String → CommandResult) (r : SyncResult)
    (subKey : String) : SyncResult :=
  let res := outcome subKey
  if res.success then { r with statuses_updated := r.statuses_updated + 1 }
  else
    match res.error with
    | some e => r.add_error e
    | none => r

/-- SyncOrchestrator._sync_statuses (orchestrator.py lines 387-421):
for each matched, complete story fetch the issue and walk all its
not-yet-done subtasks through syncStatusStep. -/
def sync_statuses (tracker : String → IssueData) (outcome : String → CommandResult)
    (ms : List (String × String)) (stories : List StoryRec)
    (r : SyncResult) : SyncResult :=
  stories.foldl
    (fun r md =>
      match dictLookup ms md.id with
      | none => r
      | some issue_key =>
        if md.status.is_complete then
          ((tracker issue_key).subtasks.filter
              (fun sub => statusNeedsTransition sub.status)).foldl
            (fun r sub => syncStatusStep outcome r sub.key) r
        else r)
    r

/-- The subtask keys the status phase attempts, in traversal order. -/
def eligibleStatusSubtasks (tracker : String → IssueData)
    (ms : List (String × String)) (stories : List StoryRec) : List String :=
  (stories.map fun md =>
    match dictLookup ms md.id with
    | none => []
    | some issue_key =>
      if md.status.is_complete then
        ((tracker issue_key).subtasks.filter
            (fun sub => statusNeedsTransition sub.status)).map IssueData.key
      else []).flatten

/-- The error messages the status phase records: one per attempted
subtask whose command failed with a reported error. -/
def statusFailMsgs (outcome : String → CommandResult) (keys : List String) :
    List String :=
  keys.filterMap fun k =>
    if (outcome k).success then none else (outcome k).error

/-! ## C8: parser error handling (MarkdownParser._parse_all_stories,
markdown.py lines 148-171) -/

/-- The source handed to parse_stories: raw text, or a path whose read
fails. -/
inductive ParseSource where
  | text (content : String)
  | unreadable (msg : String)

/-- MarkdownParser._get_content (markdown.py lines 140-146): text is
passed through; reading an unreadable path raises. -/
def _get_content : ParseSource → Except String String
  | .text c => .ok c
  | .unreadable m => .error m

/-- MarkdownParser._parse_all_stories (markdown.py lines 148-171), with
the per-block story parser abstracted: each block is parsed inside a
try/except; a raising block logs a warning and is skipped, a block
parsed to None is skipped, and the rest are collected in order. Returns
the stories and the logged warnings. -/
def _parse_all_stories {α : Type} (parseStory : StoryBlock → Except String (Option α)) :
    List StoryBlock → List α × List String
  | [] => ([], [])
  | b :: rest =>
    let r := _parse_all_stories parseStory rest
    match parseStory b with
    | .ok (some s) => (s :: r.1, r.2)
    | .ok none => r
    | .error e => (r.1, ("Failed to parse: " ++ e) :: r.2)

/-- MarkdownParser.parse_stories (markdown.py lines 87-89): read the
content, split it into blocks, parse them all; the only failure point is
reading the source. -/
def parse_stories {α : Type} (parseStory : StoryBlock → Except String (Option α))
    (toBlocks : String → List StoryBlock) (src : ParseSource) :
    Except String (List α × List String) := do
  let content ← _get_content src
  .ok (_parse_all_stories parseStory (toBlocks content))

/-! ## C9: the ADF formatter (adapters/formatters/adf.py) -/

/-- An ADF node tree: typed nodes with attributes inlined (level for
headings, state for task items, marks for text). -/
inductive Adf where
  | text (s : String) (marks : List String)
  | paragraph (content : List Adf)
  | heading (level : Nat) (content : List Adf)
  | bulletList (content : List Adf)
  | orderedList (content : List Adf)
  | taskList (content : List Adf)
  | taskItem (state : String) (content : List Adf)
  | listItem (content : List Adf)
  | table (content : List Adf)
  | tableRow (content : List Adf)
  | tableHeader (content : List Adf)
  | tableCell (content : List Adf)
  | doc (version : Nat) (content : List Adf)

/-- CommitRef: the value object holds the short-form hash and message
(value_objects.py is not under src; spec section 3). -/
structure CommitRef where
  hash : String
  message : String

/-- Modelled from the spec: CommitRef stores the hash in short form, so
short_hash is the stored hash. -/
def CommitRef.short_hash (c : CommitRef) : String := c.hash

namespace ADFFormatter

/-- ADFFormatter._text. -/
def plain_text (s : String) : Adf := .text s []

/-- ADFFormatter._bold_text. -/
def bold_text (s : String) : Adf := .text s ["strong"]

/-- ADFFormatter._code_text. -/
def code_text (s : String) : Adf := .text s ["code"]

/-- ADFFormatter._italic_text. -/
def italic_text (s : String) : Adf := .text s ["em"]

/-- ADFFormatter._heading. -/
def mk_heading (s : String) (level : Nat) : Adf := .heading level [plain_text s]

/-- ADFFormatter._doc (adf.py lines 186-195): empty content is replaced
by a single paragraph holding a single-space text node. -/
def mk_doc (content : List Adf) : Adf :=
  .doc 1 (if content.isEmpty then [.paragraph [plain_text " "]] else content)

/-- ADFFormatter._table_row. -/
def table_row (cells : List Adf) : Adf := .tableRow cells

/-- ADFFormatter._table_header. -/
def table_header (s : String) : Adf :=
  .tableHeader [.paragraph [bold_text s]]

/-- ADFFormatter._table_cell. -/
def table_cell (content : List Adf) : Adf :=
  .tableCell [.paragraph content]

/-- The bold alternative of the inline regex: two stars, one or more
non-star characters (greedy), two stars. -/
def tryBold (l : List Char) : Option (Adf × List Char) :=
  match l with
  | '*' :: '*' :: rest =>
    let run := rest.takeWhile (fun c => !(c = '*'))
    if run.isEmpty then none
    else
      match rest.drop run.length with
      | '*' :: '*' :: r2 => some (bold_text (String.mk run), r2)
      | _ => none
  | _ => none

/-- The italic alternative: one star, one or more non-star characters,
one star. -/
def tryItalic (l : List Char) : Option (Adf × List Char) :=
  match l with
  | '*' :: rest =>
    let run := rest.takeWhile (fun c => !(c = '*'))
    if run.isEmpty then none
    else
      match rest.drop run.length with
      | '*' :: r2 => some (italic_text (String.mk run), r2)
      | _ => none
  | _ => none

/-- The code alternative: backtick, one or more non-backtick characters,
backtick. -/
def tryCode (l : List Char) : Option (Adf × List Char) :=
  match l with
  | '`' :: rest =>
    let run := rest.takeWhile (fun c => !(c = '`'))
    if run.isEmpty then none
    else
      match rest.drop run.length with
      | '`' :: r2 => some (code_text (String.mk run), r2)
      | _ => none
  | _ => none

/-- One position of the alternation, in the order of the pattern. -/
def tryInline (l : List Char) : Option (Adf × List Char) :=
  match tryBold l with
  | some r => some r
  | none =>
    match tryItalic l with
    | some r => some r
    | none => tryCode l

/-- The left-to-right scan of re.finditer over the inline pattern: plain
text accumulates (reversed) until an alternative matches; fuel bounds
the recursion by the input length and never runs out on it. -/
def scanInline (fuel : Nat) (acc l : List Char) : List Adf :=
  match fuel, l with
  | _, [] => if acc.isEmpty then [] else [plain_text (String.mk acc.reverse)]
  | 0, _ :: _ => if acc.isEmpty then [] else [plain_text (String.mk acc.reverse)]
  | fuel + 1, c :: t =>
    match tryInline (c :: t) with
    | some (node, rest) =>
      (if acc.isEmpty then [] else [plain_text (String.mk acc.reverse)]) ++
        node :: scanInline fuel [] rest
    | none => scanInline fuel (c :: acc) t

/-- ADFFormatter._parse_inline (adf.py lines 233-263): scan the text;
when nothing was emitted the whole text becomes one plain node. -/
def parse_inline (text : String) : List Adf :=
  let content := scanInline text.toList.length [] text.toList
  if content.isEmpty then [plain_text text] else content

/-- Python str.strip() (ASCII whitespace). -/
def pyStrip (l : List Char) : List Char :=
  ((l.dropWhile isWs).reverse.dropWhile isWs).reverse

/-- The two kinds of open list format_text tracks. -/
inductive ListKind where
  | task
  | bullet
deriving DecidableEq

/-- The loop state of format_text: the nodes already in content, the
current open list (which Python keeps aliased inside content), and the
separate current-list-type variable. -/
structure FmtState where
  finished : List Adf
  cur : Option (ListKind × List Adf)
  curType : Option ListKind

/-- Close the open list into the produced content, rendering it as its
node. -/
def flushCur (st : FmtState) : List Adf :=
  match st.cur with
  | some (.task, items) => st.finished ++ [.taskList items]
  | some (.bullet, items) => st.finished ++ [.bulletList items]
  | none => st.finished

/-- One line of ADFFormatter.format_text (adf.py lines 37-109), an exact
transcription of the branch cascade; none models the AttributeError the
Python code raises when a list-typed line arrives while
current_list_type still names a list but current_list was reset to None
by a heading line (the heading branches reset only current_list). -/
def format_text_line (st : FmtState) (line : List Char) : Option FmtState :=
  if (pyStrip line).isEmpty then
    some ⟨flushCur st, none, none⟩
  else if (String.toList "### ").isPrefixOf line then
    some ⟨flushCur st ++ [mk_heading (String.mk (line.drop 4)) 3], none, st.curType⟩
  else if (String.toList "## ").isPrefixOf line then
    some ⟨flushCur st ++ [mk_heading (String.mk (line.drop 3)) 2], none, st.curType⟩
  else if (String.toList "# ").isPrefixOf line then
    some ⟨flushCur st ++ [mk_heading (String.mk (line.drop 2)) 1], none, st.curType⟩
  else if (String.toList "h3. ").isPrefixOf line then
    some ⟨flushCur st ++ [mk_heading (String.mk (line.drop 4)) 3], none, st.curType⟩
  else if (String.toList "h2. ").isPrefixOf line then
    some ⟨flushCur st ++ [mk_heading (String.mk (line.drop 4)) 2], none, st.curType⟩
  else
    match line with
    | '-' :: ' ' :: '[' :: mark :: ']' :: ' ' :: rest =>
      if mark = ' ' || mark = 'x' then
        let item : Adf :=
          .taskItem (if mark = 'x' then "DONE" else "TODO")
            (parse_inline (String.mk rest))
        if st.curType ≠ some .task then
          some ⟨flushCur st, some (.task, [item]), some .task⟩
        else
          match st.cur with
          | some (k, items) => some ⟨st.finished, some (k, items ++ [item]), st.curType⟩
          | none => none
      else
        format_text_line_tail st line
    | _ => format_text_line_tail st line
where
  /-- The branches after the task-item test: bullet items, table rows,
  plain paragraphs. -/
  format_text_line_tail (st : FmtState) (line : List Char) : Option FmtState :=
    if (String.toList "* ").isPrefixOf line ||
        ((String.toList "- ").isPrefixOf line &&
          !((String.toList "- [").isPrefixOf line)) then
      let item : Adf := .listItem [.paragraph (parse_inline (String.mk (line.drop 2)))]
      if st.curType ≠ some .bullet then
        some ⟨flushCur st, some (.bullet, [item]), some .bullet⟩
      else
        match st.cur with
        | some (k, items) => some ⟨st.finished, some (k, items ++ [item]), st.curType⟩
        | none => none
    else if (String.toList "|").isPrefixOf line then
      some ⟨flushCur st, none, none⟩
    else
      some ⟨flushCur st ++ [.paragraph (parse_inline (String.mk line))], none, none⟩

/-- ADFFormatter.format_text (adf.py lines 31-111): fold the line step
over the newline-split input and wrap the content; none models the
AttributeError path. -/
def format_text (text : String) : Option Adf :=
  ((splitNl text.toList).foldlM format_text_line ⟨[], none, none⟩).map
    fun st => mk_doc (flushCur st)

/-- ADFFormatter.format_commits_table (adf.py lines 122-146). -/
def format_commits_table (commits : List CommitRef) : Adf :=
  let rows := table_row [table_header "Commit", table_header "Message"] ::
    commits.map fun c =>
      table_row [table_cell [code_text c.short_hash], table_cell [plain_text c.message]]
  mk_doc [mk_heading "Related Commits" 3, .table rows]

/-- ADFFormatter.format_heading (adf.py lines 148-150). -/
def format_heading (text : String) (level : Nat) : Adf :=
  mk_doc [mk_heading text level]

/-- ADFFormatter.format_list (adf.py lines 152-163). -/
def format_list (items : List String) (ordered : Bool) : Adf :=
  let list_items := items.map fun i => Adf.listItem [.paragraph (parse_inline i)]
  mk_doc [if ordered then .orderedList list_items else .bulletList list_items]

/-- ADFFormatter.format_task_list (adf.py lines 165-180). -/
def format_task_list (items : List (String × Bool)) : Adf :=
  mk_doc [.taskList (items.map fun it =>
    Adf.taskItem (if it.2 then "DONE" else "TODO") (parse_inline it.1))]

end ADFFormatter

/-- The C9 invariant: a version-1 doc node with nonempty content. -/
def isDocShaped (a : Adf) : Prop :=
  match a with
  | .doc v content => v = 1 ∧ content ≠ []
  | _ => False

/-- The document produced for empty or whitespace-only text. -/
def singleSpaceDoc : Adf := .doc 1 [.paragraph [.text " " []]]

/-! ## C10: the EventBus (core/domain/events.py lines 107-143) -/

/-- An event as the bus sees it: its exact type name and an identifying
payload stand-in. -/
structure EventRec where
  ty : String
  idx : Nat
deriving DecidableEq

/-- The bus: handlers is the dict from event type to the handlers
registered for it (registration order); handlers are named by
numbers. -/
structure EventBus where
  handlers : List (String × List Nat)
  history : List EventRec

/-- EventBus.subscribe (events.py lines 118-122): create the type's list
when absent, then append the handler. -/
def EventBus.subscribe (bus : EventBus) (ty : String) (h : Nat) : EventBus :=
  if bus.handlers.any (fun p => p.1 == ty) then
    { bus with handlers := bus.handlers.map fun p =>
        if p.1 == ty then (p.1, p.2 ++ [h]) else p }
  else { bus with handlers := bus.handlers ++ [(ty, [h])] }

/-- The handlers the dict holds for a type (dict.get with empty
default). -/
def EventBus.handlersFor (bus : EventBus) (ty : String) : List Nat :=
  match dictLookup bus.handlers ty with
  | some l => l
  | none => []

/-- An observable step of a publish call: the history append or one
handler invocation. -/
inductive BusAction where
  | append (e : EventRec)
  | invoke (h : Nat) (e : EventRec)
deriving DecidableEq

/-- EventBus.publish (events.py lines 124-134): append to history first,
then invoke the handlers for the exact event type, then the catch-all
DomainEvent handlers; the returned list is the ordered action trace. -/
def EventBus.publish (bus : EventBus) (e : EventRec) : EventBus × List BusAction :=
  ({ bus with history := bus.history ++ [e] },
    .append e ::
      ((bus.handlersFor e.ty).map fun h => .invoke h e) ++
      ((bus.handlersFor "DomainEvent").map fun h => .invoke h e))

/-- A store of list cells, for the aliasing behaviour of get_history:
the bus's history lives in one cell, and get_history hands out a
reference. -/
abbrev ListStore : Type := List (List EventRec)

/-- EventBus.get_history (events.py lines 136-138): allocate a fresh
cell holding a copy of the history and return its reference. -/
def get_history (store : ListStore) (historyRef : Nat) : ListStore × Nat :=
  (store ++ [store.getD historyRef []], store.length)

/-- Mutating a list through a reference: append one element in
place. -/
def storeAppendAt (store : ListStore) (ref : Nat) (e : EventRec) : ListStore :=
  store.set ref (store.getD ref [] ++ [e])

end Md2Jira

namespace Md2Jira

/-! ## C1 helper lemmas -/

theorem takeWhile_append_all {p : Char → Bool} {l r : List Char}
    (h : l.all p) : (l ++ r).takeWhile p = l ++ r.takeWhile p := by
  induction l with
  | nil => simp
  | cons c t ih =>
    simp only [List.all_cons, Bool.and_eq_true] at h
    simp [List.takeWhile, h.1, ih h.2]

theorem takeWhile_append_stop {p : Char → Bool} {l r : List Char}
    (h : ¬ l.all p = true) : (l ++ r).takeWhile p = l.takeWhile p := by
  induction l with
  | nil => simp at h
  | cons c t ih =>
    by_cases hc : p c
    · simp only [List.all_cons, hc, Bool.true_and] at h
      simp [List.takeWhile, hc, ih h]
    · simp [List.takeWhile, hc]

theorem takeWhile_length_le (p : Char → Bool) (l : List Char) :
    (l.takeWhile p).length ≤ l.length := by
  induction l with
  | nil => simp
  | cons c t ih =>
    by_cases hc : p c
    · simp [List.takeWhile, hc]; omega
    · simp [List.takeWhile, hc]

theorem drop_takeWhile_length (p : Char → Bool) (l : List Char) :
    l.drop (l.takeWhile p).length = l.dropWhile p := by
  induction l with
  | nil => simp
  | cons c t ih =>
    by_cases hc : p c
    · simp [List.takeWhile, List.dropWhile, hc, ih]
    · simp [List.takeWhile, List.dropWhile, hc]

theorem dropWhile_head_not {p : Char → Bool} {l : List Char} {c : Char}
    {t : List Char} (h : l.dropWhile p = c :: t) : p c = false := by
  induction l with
  | nil => simp [List.dropWhile] at h
  | cons d r ih =>
    by_cases hd : p d
    · simp [List.dropWhile, hd] at h; exact ih h
    · simp [List.dropWhile, hd] at h
      rcases h with ⟨h1, _⟩
      rw [← h1]; exact Bool.of_not_eq_true hd

theorem dropWhile_ne_nil_of_not_all {p : Char → Bool} {q : List Char}
    (h : ¬ q.all p = true) : q.dropWhile p ≠ [] := by
  induction q with
  | nil => simp at h
  | cons c t ih =>
    by_cases hc : p c
    · simp only [List.all_cons, hc, Bool.true_and] at h
      simpa [List.dropWhile, hc] using ih h
    · simp [List.dropWhile, hc]

theorem mem_of_mem_dropWhile {p : Char → Bool} {q : List Char} {x : Char}
    (h : x ∈ q.dropWhile p) : x ∈ q := by
  induction q with
  | nil => simp [List.dropWhile] at h
  | cons c t ih =>
    by_cases hc : p c
    · simp only [List.dropWhile, hc] at h
      exact List.mem_cons_of_mem c (ih h)
    · simpa [List.dropWhile, hc] using h

theorem upper_ne_hash {c : Char} (h : isUpperAlpha c = true) : c ≠ '#' := by
  intro hc; subst hc; simp [isUpperAlpha] at h

theorem digit_ne_hash {c : Char} (h : isDigitCh c = true) : c ≠ '#' := by
  intro hc; subst hc; simp [isDigitCh] at h

theorem alnum_ne_hash {c : Char} (h : isAlnumCh c = true) : c ≠ '#' := by
  intro hc; subst hc; simp [isAlnumCh, isAlphaCh, isDigitCh] at h

theorem alnum_ne_hyphen {c : Char} (h : isAlnumCh c = true) : c ≠ '-' := by
  intro hc; subst hc; simp [isAlnumCh, isAlphaCh, isDigitCh] at h

theorem digit_not_upper {c : Char} (h : isDigitCh c = true) :
    isUpperAlpha c = false := by
  simp only [isDigitCh, Bool.and_eq_true, decide_eq_true_eq] at h
  rw [Bool.eq_false_iff]
  intro hu
  simp only [isUpperAlpha, Bool.and_eq_true, decide_eq_true_eq] at hu
  omega

/-- Accepting half of C1: a header id built from a nonempty uppercase
letter prefix, a hyphen and a nonempty digit run is accepted. -/
theorem acceptsStoryId_accepts {p n : List Char}
    (hp : p ≠ []) (hpu : p.all isUpperAlpha = true)
    (hn : n ≠ []) (hnd : n.all isDigitCh = true) :
    acceptsStoryId (p ++ '-' :: n) = true := by
  obtain ⟨c, p', rfl⟩ := List.exists_cons_of_ne_nil hp
  have hcu : isUpperAlpha c = true := by
    simp only [List.all_cons, Bool.and_eq_true] at hpu; exact hpu.1
  have hch : c ≠ '#' := upper_ne_hash hcu
  have hpre : ((c :: p') ++ '-' :: n).takeWhile isUpperAlpha = c :: p' := by
    rw [takeWhile_append_all hpu]
    simp [List.takeWhile, isUpperAlpha]
  unfold acceptsStoryId
  split
  · rename_i rest heq
    exact absurd (List.cons.injEq .. ▸ congrArg id heq |>.1) hch
  · simp only
    rw [hpre, List.drop_left]
    simp [hn, hnd]

/-- The hash form of C1: a hash sign followed by a nonempty digit run is
accepted. -/
theorem acceptsStoryId_accepts_hash {n : List Char}
    (hn : n ≠ []) (hnd : n.all isDigitCh = true) :
    acceptsStoryId ('#' :: n) = true := by
  unfold acceptsStoryId
  simp [hn, hnd]

/-- Rejecting half of C1, prefixed forms: an alphanumeric prefix that is
not uppercase-only (it has a lowercase letter or a digit somewhere) is
rejected, whatever follows the hyphen. -/
theorem acceptsStoryId_rejects_bad_prefix {q m : List Char}
    (hq : q ≠ []) (hqa : q.all isAlnumCh = true)
    (hbad : ¬ q.all isUpperAlpha = true) :
    acceptsStoryId (q ++ '-' :: m) = false := by
  obtain ⟨c, q', rfl⟩ := List.exists_cons_of_ne_nil hq
  have hca : isAlnumCh c = true := by
    simp only [List.all_cons, Bool.and_eq_true] at hqa; exact hqa.1
  have hch : c ≠ '#' := alnum_ne_hash hca
  have hpre : ((c :: q') ++ '-' :: m).takeWhile isUpperAlpha =
      (c :: q').takeWhile isUpperAlpha := takeWhile_append_stop hbad
  obtain ⟨e, t, hdw⟩ := List.exists_cons_of_ne_nil (dropWhile_ne_nil_of_not_all hbad)
  have hea : isAlnumCh e = true := by
    have : e ∈ c :: q' := mem_of_mem_dropWhile (q := c :: q') (by rw [hdw]; simp)
    exact List.all_eq_true.mp hqa e this
  have heh : e ≠ '-' := alnum_ne_hyphen hea
  have hlen : ((c :: q').takeWhile isUpperAlpha).length ≤ (c :: q').length :=
    takeWhile_length_le _ _
  unfold acceptsStoryId
  split
  · rename_i rest heq
    exact absurd (List.cons.injEq .. ▸ congrArg id heq |>.1) hch
  · simp only
    rw [hpre, List.drop_append_of_le_length hlen, drop_takeWhile_length, hdw]
    split
    · rename_i num heq
      exact absurd (List.cons.injEq .. ▸ congrArg id heq |>.1) heh
    · rfl

/-- Rejecting half of C1, bare numbers: a purely numeric id with no
prefix is rejected. -/
theorem acceptsStoryId_rejects_numeric {d : List Char}
    (hd : d ≠ []) (hdd : d.all isDigitCh = true) :
    acceptsStoryId d = false := by
  obtain ⟨c, t, rfl⟩ := List.exists_cons_of_ne_nil hd
  have hcd : isDigitCh c = true := by
    simp only [List.all_cons, Bool.and_eq_true] at hdd; exact hdd.1
  have hch : c ≠ '#' := digit_ne_hash hcd
  have hcu : isUpperAlpha c = false := digit_not_upper hcd
  have hchy : c ≠ '-' := alnum_ne_hyphen (by simp [isAlnumCh, hcd])
  unfold acceptsStoryId
  split
  · rename_i rest heq
    exact absurd (List.cons.injEq .. ▸ congrArg id heq |>.1) hch
  · simp only
    rw [show (c :: t).takeWhile isUpperAlpha = [] by simp [List.takeWhile, hcu]]
    simp only [List.length_nil, List.drop_zero]
    split
    · rename_i num heq
      exact absurd (List.cons.injEq .. ▸ congrArg id heq |>.1) hchy
    · rfl

end Md2Jira

namespace Md2Jira

/-! ## Dict lemmas (Python assignment / lookup semantics) -/

theorem dictLookup_nil {α : Type} (k : String) :
    dictLookup ([] : List (String × α)) k = none := rfl

theorem dictLookup_dictInsert_self {α : Type} (d : List (String × α))
    (k : String) (v : α) : dictLookup (dictInsert d k v) k = some v := by
  unfold dictInsert
  by_cases h : d.any (fun p => p.1 == k)
  · simp only [h, if_true]
    induction d with
    | nil => simp at h
    | cons p t ih =>
      by_cases hp : p.1 == k
      · simp [dictLookup, List.find?, hp]
      · simp only [List.any_cons, hp, Bool.false_or] at h
        simp only [List.map_cons, hp, if_false]
        simpa [dictLookup, List.find?, hp] using ih h
  · simp only [h, if_false]
    have hnone : d.find? (fun p => p.1 == k) = none := by
      rw [List.find?_eq_none]
      intro x hx
      simp only [Bool.not_eq_true]
      by_contra hc
      exact h (List.any_eq_true.mpr ⟨x, hx, by simpa using hc⟩)
    simp [dictLookup, List.find?_append, hnone, List.find?]

theorem find?_map_keyUpdate {α : Type} (t : List (String × α))
    (k k' : String) (v : α) (h : (k == k') = false) :
    (t.map (fun p => if p.1 == k then (k, v) else p)).find? (fun p => p.1 == k') =
      t.find? (fun p => p.1 == k') := by
  induction t with
  | nil => rfl
  | cons p t ih =>
    simp only [List.map_cons]
    cases hp : (p.1 == k) with
    | true =>
      have hp1 : p.1 = k := by simpa using hp
      rw [if_pos rfl]
      rw [List.find?_cons_of_neg _ (by simpa using h),
        List.find?_cons_of_neg _ (by rw [hp1]; simpa using h)]
      exact ih
    | false =>
      rw [if_neg (by simp)]
      cases hq : (p.1 == k') with
      | true =>
        rw [List.find?_cons_of_pos _ (by simpa using hq),
          List.find?_cons_of_pos _ (by simpa using hq)]
      | false =>
        rw [List.find?_cons_of_neg _ (by simp [hq]),
          List.find?_cons_of_neg _ (by simp [hq])]
        exact ih

theorem dictLookup_dictInsert_ne {α : Type} (d : List (String × α))
    (k k' : String) (v : α) (h : k' ≠ k) :
    dictLookup (dictInsert d k v) k' = dictLookup d k' := by
  have hkk : ((k : String) == k') = false := by
    rw [beq_eq_false_iff_ne]; exact fun hh => h hh.symm
  unfold dictInsert
  by_cases ha : d.any (fun p => p.1 == k)
  · rw [if_pos ha]
    unfold dictLookup
    rw [find?_map_keyUpdate _ _ _ _ hkk]
  · rw [if_neg ha]
    unfold dictLookup
    rw [List.find?_append]
    cases hf : d.find? (fun p => p.1 == k') with
    | some x => simp [hf]
    | none =>
      simp only [hf, Option.none_or]
      rw [List.find?_cons_of_neg _ (by simpa using hkk)]
      rfl

theorem mem_dictInsert {α : Type} {d : List (String × α)} {k' : String}
    {v' : α} {x : String × α} (h : x ∈ dictInsert d k' v') :
    x ∈ d ∨ x = (k', v') := by
  unfold dictInsert at h
  by_cases ha : d.any (fun p => p.1 == k')
  · simp only [ha, if_true] at h
    obtain ⟨a, hmem, hax⟩ := List.mem_map.mp h
    by_cases hk : a.1 == k'
    · simp only [hk, if_true] at hax
      exact Or.inr hax.symm
    · simp only [hk, if_false] at hax
      exact Or.inl (hax ▸ hmem)
  · simp only [ha, if_false] at h
    rcases List.mem_append.mp h with h | h
    · exact Or.inl h
    · simp at h; exact Or.inr h

theorem mem_pyDict_fold {α : Type} {pairs : List (String × α)} :
    ∀ {d : List (String × α)} {x : String × α},
      x ∈ pairs.foldl (fun d p => dictInsert d p.1 p.2) d → x ∈ d ∨ x ∈ pairs := by
  induction pairs with
  | nil => intro d x h; exact Or.inl h
  | cons p rest ih =>
    intro d x h
    rcases ih (d := dictInsert d p.1 p.2) h with h' | h'
    · rcases mem_dictInsert h' with h'' | h''
      · exact Or.inl h''
      · exact Or.inr (by simp [h''])
    · exact Or.inr (List.mem_cons_of_mem _ h')

theorem dictLookup_mem {α : Type} {d : List (String × α)} {k : String}
    {v : α} (h : dictLookup d k = some v) : (k, v) ∈ d := by
  unfold dictLookup at h
  cases hf : d.find? (fun p => p.1 == k) with
  | none => rw [hf] at h; simp at h
  | some x =>
    rw [hf] at h
    simp at h
    have hx := List.find?_some hf
    have hmem := List.mem_of_find?_eq_some hf
    have hk : x.1 = k := by simpa using hx
    have : x = (k, v) := by
      cases x with
      | mk a b => simp at hk h; simp [hk, h]
    exact this ▸ hmem

theorem mem_pyDict {α : Type} {pairs : List (String × α)} {x : String × α}
    (h : x ∈ pyDict pairs) : x ∈ pairs := by
  rcases mem_pyDict_fold (d := []) h with h' | h'
  · simp at h'
  · exact h'

theorem dictLookup_pyDict_some_mem {α : Type} {pairs : List (String × α)}
    {k : String} {v : α} (h : dictLookup (pyDict pairs) k = some v) :
    (k, v) ∈ pairs := mem_pyDict (dictLookup_mem h)

theorem dictLookup_foldl_none {α : Type} {pairs : List (String × α)}
    {k : String} (h : ∀ p ∈ pairs, p.1 ≠ k) (d : List (String × α)) :
    dictLookup (pairs.foldl (fun d p => dictInsert d p.1 p.2) d) k =
      dictLookup d k := by
  induction pairs generalizing d with
  | nil => rfl
  | cons p rest ih =>
    have hp : p.1 ≠ k := h p (by simp)
    have hrest : ∀ q ∈ rest, q.1 ≠ k := fun q hq => h q (by simp [hq])
    simp only [List.foldl_cons]
    rw [ih hrest, dictLookup_dictInsert_ne _ _ _ _ ?_]
    intro hc; exact hp hc.symm

theorem dictLookup_isSome_foldl {α : Type} {pairs : List (String × α)}
    {k : String} {d : List (String × α)}
    (h : (dictLookup d k).isSome) :
    (dictLookup (pairs.foldl (fun d p => dictInsert d p.1 p.2) d) k).isSome := by
  induction pairs generalizing d with
  | nil => exact h
  | cons p rest ih =>
    simp only [List.foldl_cons]
    apply ih
    by_cases hp : p.1 = k
    · rw [← hp, dictLookup_dictInsert_self]; simp
    · rw [dictLookup_dictInsert_ne _ _ _ _ (fun hc => hp hc.symm)]
      exact h

theorem dictLookup_pyDict_isSome {α : Type} {pairs : List (String × α)}
    {k : String} (h : ∃ p ∈ pairs, p.1 = k) :
    (dictLookup (pyDict pairs) k).isSome := by
  obtain ⟨p, hmem, hk⟩ := h
  obtain ⟨l1, l2, rfl⟩ := List.append_of_mem hmem
  unfold pyDict
  rw [List.foldl_append, List.foldl_cons]
  apply dictLookup_isSome_foldl
  rw [← hk, dictLookup_dictInsert_self]
  simp

theorem dictLookup_pyDict_none_iff {α : Type} (pairs : List (String × α))
    (k : String) :
    dictLookup (pyDict pairs) k = none ↔ ∀ p ∈ pairs, p.1 ≠ k := by
  constructor
  · intro h
    by_contra hc
    push_neg at hc
    obtain ⟨p, hmem, hk⟩ := hc
    have := dictLookup_pyDict_isSome ⟨p, hmem, hk⟩
    rw [h] at this; simp at this
  · intro h
    unfold pyDict
    rw [dictLookup_foldl_none h]
    rfl

theorem lookupLast_aux {α : Type} (pairs : List (String × α)) (k : String) :
    ∀ d, dictLookup (pairs.foldl (fun d p => dictInsert d p.1 p.2) d) k =
      match ((pairs.reverse).find? (fun p => p.1 == k)).map (·.2) with
      | some v => some v
      | none => dictLookup d k := by
  induction pairs with
  | nil => intro d; rfl
  | cons p rest ih =>
    intro d
    simp only [List.foldl_cons, List.reverse_cons, List.find?_append]
    rw [ih]
    cases hf : rest.reverse.find? (fun p => p.1 == k) with
    | some x => simp [hf]
    | none =>
      simp only [hf, Option.none_or]
      by_cases hp : p.1 == k
      · have hp1 : p.1 = k := by simpa using hp
        simp only [List.find?, hp]
        simp [← hp1, dictLookup_dictInsert_self]
      · have hp1 : p.1 ≠ k := by simpa using hp
        simp only [List.find?, hp]
        simp [dictLookup_dictInsert_ne _ _ _ _ (fun hc => hp1 hc.symm)]

/-- Python dict lookup after bulk insertion returns the value of the
last pair carrying the key. -/
theorem dictLookup_pyDict_last {α : Type} (pairs : List (String × α))
    (k : String) :
    dictLookup (pyDict pairs) k =
      ((pairs.reverse).find? (fun p => p.1 == k)).map (·.2) := by
  unfold pyDict
  rw [lookupLast_aux pairs k []]
  cases hf : ((pairs.reverse).find? (fun p => p.1 == k)).map (·.2) <;> rfl

end Md2Jira

namespace Md2Jira

/-! ## Claim C1 -/

/-- Claim C1: for every story-header id of the form uppercase-prefix,
hyphen, digits, or hash-digits, parse_stories recognizes the block as a
story and returns the id text unchanged; and a header id whose prefix is
alphanumeric but not uppercase-only (lowercase or mixed case, or a
prefix containing digits), or that is purely numeric with no prefix,
yields zero stories for its block. -/
theorem C1_story_id_prefix_rule
    (p n q m d title body : List Char)
    (hp : p ≠ []) (hpu : p.all isUpperAlpha = true)
    (hn : n ≠ []) (hnd : n.all isDigitCh = true)
    (hq : q ≠ []) (hqa : q.all isAlnumCh = true)
    (hqbad : ¬ q.all isUpperAlpha = true)
    (hd : d ≠ []) (hdd : d.all isDigitCh = true) :
    specParseStories [⟨p ++ '-' :: n, title, body⟩] = [⟨p ++ '-' :: n, title⟩] ∧
    specParseStories [⟨'#' :: n, title, body⟩] = [⟨'#' :: n, title⟩] ∧
    specParseStories [⟨q ++ '-' :: m, title, body⟩] = [] ∧
    specParseStories [⟨d, title, body⟩] = [] := by
  refine ⟨?_, ?_, ?_, ?_⟩
  · simp [specParseStories, acceptsStoryId_accepts hp hpu hn hnd]
  · simp [specParseStories, acceptsStoryId_accepts_hash hn hnd]
  · simp [specParseStories, acceptsStoryId_rejects_bad_prefix hq hqa hqbad]
  · simp [specParseStories, acceptsStoryId_rejects_numeric hd hdd]

/-- Witness for C1 at concrete ids: US-001 and a hash id are parsed and
round-tripped, while proj-123 and a bare 456 are rejected. -/
theorem C1_story_id_prefix_rule_witness :
    specParseStories
        [⟨"US".toList ++ '-' :: "001".toList, "T".toList, ([] : List Char)⟩] =
      [⟨"US".toList ++ '-' :: "001".toList, "T".toList⟩] ∧
    specParseStories [⟨'#' :: "001".toList, "T".toList, ([] : List Char)⟩] =
      [⟨'#' :: "001".toList, "T".toList⟩] ∧
    specParseStories
        [⟨"proj".toList ++ '-' :: "123".toList, "T".toList, ([] : List Char)⟩] = [] ∧
    specParseStories [⟨"456".toList, "T".toList, ([] : List Char)⟩] = [] :=
  C1_story_id_prefix_rule "US".toList "001".toList "proj".toList "123".toList
    "456".toList "T".toList ([] : List Char)
    (by decide) (by decide) (by decide) (by decide) (by decide) (by decide)
    (by decide) (by decide) (by decide)

/-! ## Claim C2 -/

/-- Claim C2 counterexample: with local subtask name abc and one remote
subtask summarized abcd, the claimed 30-character substring criterion
holds (abc occurs in abcd), yet the orchestrator's sync-subtasks phase
creates a new subtask instead of updating, because its lookup is exact
lowercased-summary equality; and the legacy engine, which does use the
substring criterion, skips the subtask (creates nothing) rather than
updating it. -/
theorem C2_subtask_matching_counterexample :
    legacySubtaskAlreadyPresent "abc".toList ["abcd".toList] = true ∧
    orchestratorSubtaskAction "abc" [⟨"K-1", "abcd", "Open"⟩] =
      SubtaskAction.create ∧
    legacyPhase2Creates ["abc".toList] ["abcd".toList] = [] :=
  ⟨rfl, rfl, rfl⟩

/-- Claim C2 amended: in the orchestrator's sync-subtasks phase a local
subtask is created exactly when no existing remote subtask's lowercased
summary equals its lowercased name, and updated only against a remote
subtask with equal lowercased summary; the lowercased 30-character
truncated two-way substring criterion belongs to the legacy engine,
where it decides that a subtask is already present, in which case the
subtask is skipped (only absent subtasks are created; nothing is
updated). -/
theorem C2_subtask_matching_amended (name : String)
    (subtasks : List RemoteSubtask) (names summaries : List (List Char))
    (nm : List Char) :
    (orchestratorSubtaskAction name subtasks = .create ↔
      ∀ st ∈ subtasks, pyLowerStr st.summary ≠ pyLowerStr name) ∧
    (∀ k, orchestratorSubtaskAction name subtasks = .update k →
      ∃ st ∈ subtasks, st.key = k ∧ pyLowerStr st.summary = pyLowerStr name) ∧
    (legacySubtaskAlreadyPresent nm summaries = true ↔
      ∃ s ∈ summaries, subStr ((pyLower nm).take 30) (pyLower s) = true ∨
        subStr (pyLower s) (pyLower nm) = true) ∧
    (nm ∈ legacyPhase2Creates names summaries ↔
      nm ∈ names ∧ legacySubtaskAlreadyPresent nm summaries = false) := by
  refine ⟨?_, ?_, ?_, ?_⟩
  · unfold orchestratorSubtaskAction
    constructor
    · intro hact st hmem heq
      cases hl : dictLookup
          (pyDict (subtasks.map fun st => (pyLowerStr st.summary, st)))
          (pyLowerStr name) with
      | some st' => rw [hl] at hact; simp at hact
      | none =>
        rw [dictLookup_pyDict_none_iff] at hl
        exact hl (pyLowerStr st.summary, st)
          (List.mem_map.mpr ⟨st, hmem, rfl⟩) heq
    · intro hall
      cases hl : dictLookup
          (pyDict (subtasks.map fun st => (pyLowerStr st.summary, st)))
          (pyLowerStr name) with
      | some st' =>
        exfalso
        have hmem := dictLookup_pyDict_some_mem hl
        obtain ⟨st, hst, heq⟩ := List.mem_map.mp hmem
        have : pyLowerStr st.summary = pyLowerStr name := congrArg Prod.fst heq
        exact hall st hst this
      | none => rfl
  · intro k hact
    unfold orchestratorSubtaskAction at hact
    cases hl : dictLookup
        (pyDict (subtasks.map fun st => (pyLowerStr st.summary, st)))
        (pyLowerStr name) with
    | none => rw [hl] at hact; simp at hact
    | some st' =>
      rw [hl] at hact
      simp only [SubtaskAction.update.injEq] at hact
      have hmem := dictLookup_pyDict_some_mem hl
      obtain ⟨st, hst, heq⟩ := List.mem_map.mp hmem
      have h1 : pyLowerStr st.summary = pyLowerStr name := congrArg Prod.fst heq
      have h2 : st = st' := congrArg Prod.snd heq
      exact ⟨st, hst, by rw [h2, hact], h1⟩
  · unfold legacySubtaskAlreadyPresent
    rw [List.any_eq_true]
    constructor
    · rintro ⟨s, hs, hpred⟩
      obtain ⟨s0, hs0, rfl⟩ := List.mem_map.mp hs
      rcases Bool.or_eq_true _ _ |>.mp hpred with h | h
      · exact ⟨s0, hs0, Or.inl h⟩
      · exact ⟨s0, hs0, Or.inr h⟩
    · rintro ⟨s, hs, hpred⟩
      refine ⟨pyLower s, List.mem_map.mpr ⟨s, hs, rfl⟩, ?_⟩
      rcases hpred with h | h <;> simp [h]
  · unfold legacyPhase2Creates
    rw [List.mem_filter]
    simp

/-- Witness for C2's amended theorem: applied at the concrete inputs of
the counterexample, the create equivalence yields the create action. -/
theorem C2_subtask_matching_amended_witness :
    orchestratorSubtaskAction "abc" [⟨"K-1", "abcd", "Open"⟩] =
      SubtaskAction.create :=
  (C2_subtask_matching_amended "abc" [⟨"K-1", "abcd", "Open"⟩] [] [] []).1.mpr
    (by decide)

end Md2Jira

namespace Md2Jira

/-! ## Claim C3 -/

/-- Claim C3, evaluated on the code: the dry-run guards do hold for
every mutating operation (puts, deletes, non-search posts, and each
adapter write reports success with no tracker call), but the posted jql
search is ALSO swallowed in dry-run, because its endpoint search/jql
(no leading slash) fails the endswith slash-search-slash-jql exemption;
get_epic_children therefore returns no issues under dry-run, and on the
one-story-one-issue demo scenario a live analyze counts one matched and
zero unmatched stories while the dry-run analyze counts zero matched
and one unmatched, contradicting the equal-counts part of the claim. -/
theorem C3_dry_run_blocks_search :
    putPerformsRequest true = false ∧
    deletePerformsRequest true = false ∧
    postPerformsRequest true "issue" = false ∧
    postPerformsRequest true "issue/PROJ-1/comment" = false ∧
    postPerformsRequest true "issue/PROJ-1/transitions" = false ∧
    (∀ key, update_issue_description true key = (true, [])) ∧
    (∀ rk, create_subtask true rk = (none, [])) ∧
    (∀ key hf, update_subtask true key hf = (true, [])) ∧
    (∀ key, add_comment true key = (true, [])) ∧
    (∀ live, adapter_transition_issue true live = (true, [])) ∧
    commandDryRunResult.success = true ∧
    commandDryRunResult.dry_run = true ∧
    pyEndswith "search/jql" "/search/jql" = false ∧
    postPerformsRequest true "search/jql" = false ∧
    (∀ remote, get_epic_children true remote = []) ∧
    orchestrator_analyze_counts demoTitleMatch false [demoStory] [demoIssue] =
      (1, 0) ∧
    orchestrator_analyze_counts demoTitleMatch true [demoStory] [demoIssue] =
      (0, 1) := by
  refine ⟨rfl, rfl, by decide, by decide, by decide, fun key => rfl,
    fun rk => rfl, fun key hf => rfl, fun key => rfl, fun live => rfl,
    rfl, rfl, by decide, by decide, fun remote => rfl, by decide, by decide⟩

end Md2Jira

namespace Md2Jira

/-! ## Claim C5 -/

/-- Claim C5 counterexample: two local stories with distinct ids but the
same title are both assigned the same remote issue key by one matching
pass, so a remote issue is consumed by two local stories. -/
theorem C5_remote_issue_reuse_counterexample :
    dictLookup
        (legacy_match_stories [⟨"US-1", "login"⟩, ⟨"US-2", "login"⟩]
          [⟨"J-9", "Login"⟩]) "US-1" = some "J-9" ∧
    dictLookup
        (legacy_match_stories [⟨"US-1", "login"⟩, ⟨"US-2", "login"⟩]
          [⟨"J-9", "Login"⟩]) "US-2" = some "J-9" ∧
    ("US-1" : String) ≠ "US-2" :=
  ⟨rfl, rfl, by decide⟩

/-- Soundness of a selected issue: it lives in the title dict and its
normalized title is related to the story's. -/
theorem legacyMatchFor_sound {jiras : List JiraIssueL} {md : UserStoryL}
    {j : JiraIssueL}
    (h : legacyMatchFor (pyDict (jiras.map fun j => (j.normalize_title, j))) md =
      some j) :
    j ∈ jiras ∧ titleRelated md j := by
  unfold legacyMatchFor at h
  have entry_sound : ∀ {k : String},
      (k, j) ∈ pyDict (jiras.map fun j => (j.normalize_title, j)) →
      j ∈ jiras ∧ j.normalize_title = k := by
    intro k hk
    obtain ⟨j0, hj0, heq⟩ := List.mem_map.mp (mem_pyDict hk)
    have h1 : j0 = j := congrArg Prod.snd heq
    have h2 : j.normalize_title = k := by
      rw [← h1]; exact congrArg Prod.fst heq
    exact ⟨h1 ▸ hj0, h2⟩
  cases hl : dictLookup (pyDict (jiras.map fun j => (j.normalize_title, j)))
      md.normalize_title with
  | some j' =>
    rw [hl] at h
    simp only [Option.some.injEq] at h
    subst h
    obtain ⟨hmem, hnorm⟩ := entry_sound (dictLookup_mem hl)
    exact ⟨hmem, Or.inl hnorm.symm⟩
  | none =>
    rw [hl] at h
    unfold findFirstContain at h
    cases hf : (pyDict (jiras.map fun j => (j.normalize_title, j))).find?
        (fun p => subStr md.normalize_title.toList p.1.toList ||
          subStr p.1.toList md.normalize_title.toList) with
    | none => rw [hf] at h; simp at h
    | some x =>
      rw [hf] at h
      simp at h
      have hpred := List.find?_some hf
      have hmem := List.mem_of_find?_eq_some hf
      have hmem' : (x.1, j) ∈ pyDict (jiras.map fun j => (j.normalize_title, j)) := by
        rw [← h]; exact hmem
      obtain ⟨hmj, hnorm⟩ := entry_sound hmem'
      refine ⟨hmj, ?_⟩
      rcases Bool.or_eq_true _ _ |>.mp hpred with hc | hc
      · exact Or.inr (Or.inl (by rw [hnorm]; exact hc))
      · exact Or.inr (Or.inr (by rw [hnorm]; exact hc))

/-- The accumulator-generalized soundness of the matching fold. -/
theorem legacy_match_fold_sound (jiras : List JiraIssueL)
    (Q : String → String → Prop) :
    ∀ (mds : List UserStoryL) (m0 : List (String × String)),
      (∀ id key, dictLookup m0 id = some key → Q id key) →
      (∀ md ∈ mds, ∀ j,
        legacyMatchFor (pyDict (jiras.map fun j => (j.normalize_title, j))) md =
          some j → Q md.id j.key) →
      ∀ id key,
        dictLookup
            (mds.foldl
              (fun ms md =>
                match legacyMatchFor
                    (pyDict (jiras.map fun j => (j.normalize_title, j))) md with
                | some j => dictInsert ms md.id j.key
                | none => ms)
              m0) id = some key →
        Q id key := by
  intro mds
  induction mds with
  | nil => intro m0 h0 _ id key h; exact h0 id key h
  | cons md rest ih =>
    intro m0 h0 hsel id key h
    simp only [List.foldl_cons] at h
    refine ih _ ?_ (fun md' hmd' => hsel md' (List.mem_cons_of_mem _ hmd')) id key h
    intro id' key' hlook
    cases hm : legacyMatchFor (pyDict (jiras.map fun j => (j.normalize_title, j)))
        md with
    | none => rw [hm] at hlook; exact h0 id' key' hlook
    | some j =>
      rw [hm] at hlook
      by_cases hid : id' = md.id
      · subst hid
        rw [dictLookup_dictInsert_self] at hlook
        simp only [Option.some.injEq] at hlook
        subst hlook
        exact hsel md (by simp) j hm
      · rw [dictLookup_dictInsert_ne _ _ _ _ hid] at hlook
        exact h0 id' key' hlook

/-- Claim C5 amended: a matching pass does not de-duplicate, so the same
remote issue key may be assigned to two different local story ids (the
counterexample shows two stories sharing one key); what does hold is
that every assignment is justified: an assigned key always belongs to a
remote issue whose normalized title is equal to, contains, or is
contained in the normalized title of a local story carrying that id. -/
theorem C5_remote_issue_reuse_amended (mds : List UserStoryL)
    (jiras : List JiraIssueL) (id key : String)
    (h : dictLookup (legacy_match_stories mds jiras) id = some key) :
    ∃ md ∈ mds, md.id = id ∧ ∃ j ∈ jiras, j.key = key ∧ titleRelated md j := by
  unfold legacy_match_stories at h
  refine legacy_match_fold_sound jiras
    (fun id key => ∃ md ∈ mds, md.id = id ∧
      ∃ j ∈ jiras, j.key = key ∧ titleRelated md j)
    mds [] (fun id key h => by simp [dictLookup_nil] at h) ?_ id key h
  intro md hmd j hj
  obtain ⟨hjm, hrel⟩ := legacyMatchFor_sound hj
  exact ⟨md, hmd, rfl, j, hjm, rfl, hrel⟩

/-- Witness for C5's amended theorem at the counterexample input: the
key assigned to US-2 is justified by the second story's title
relation. -/
theorem C5_remote_issue_reuse_amended_witness :
    ∃ md ∈ [(⟨"US-1", "login"⟩ : UserStoryL), ⟨"US-2", "login"⟩],
      md.id = "US-2" ∧
      ∃ j ∈ [(⟨"J-9", "Login"⟩ : JiraIssueL)], j.key = "J-9" ∧
        titleRelated md j :=
  C5_remote_issue_reuse_amended [⟨"US-1", "login"⟩, ⟨"US-2", "login"⟩]
    [⟨"J-9", "Login"⟩] "US-2" "J-9" rfl

end Md2Jira

namespace Md2Jira

/-! ## Claim C4 -/

theorem wordChar_not_ws {c : Char} (h : pyIsWordChar c = true) :
    isWs c = false := by
  rw [Bool.eq_false_iff]
  intro hws
  simp only [isWs, Bool.or_eq_true, decide_eq_true_eq] at hws
  rcases hws with ((rfl | rfl) | rfl) | rfl <;>
    simp [pyIsWordChar, isAlnumCh, isAlphaCh, isDigitCh] at h

/-- Splitting the punctuation-substituted text on whitespace gives
exactly the maximal word-character runs of the original text. -/
theorem pySplitAux_punctToSpace (l : List Char) :
    ∀ cur, pySplitAux cur (punctToSpace l) = wordCharRunsAux cur l := by
  induction l with
  | nil => intro cur; rfl
  | cons c t ih =>
    intro cur
    simp only [punctToSpace] at ih ⊢
    rw [List.map_cons]
    by_cases hw : pyIsWordChar c
    · have hws : isWs c = false := wordChar_not_ws hw
      rw [if_pos (by simp [hw])]
      simp only [pySplitAux, wordCharRunsAux, hws, hw]
      simp only [Bool.false_eq_true, if_false, if_true]
      exact ih _
    · have hw' : pyIsWordChar c = false := by simpa using hw
      by_cases hws : isWs c
      · rw [if_pos (by simp [hws])]
        simp only [pySplitAux, wordCharRunsAux, hws, hw']
        simp only [Bool.false_eq_true, if_false, if_true]
        by_cases hcur : cur.isEmpty
        · rw [if_pos hcur, if_pos hcur]; exact ih []
        · rw [if_neg hcur, if_neg hcur, ih []]
      · have hws' : isWs c = false := by simpa using hws
        rw [if_neg (by simp [hw', hws'])]
        simp only [pySplitAux, wordCharRunsAux, hw']
        have hsp : isWs ' ' = true := by decide
        simp only [hsp, Bool.false_eq_true, if_false, if_true]
        by_cases hcur : cur.isEmpty
        · rw [if_pos hcur, if_pos hcur]; exact ih []
        · rw [if_neg hcur, if_neg hcur, ih []]

theorem collapse_punct_eq_runs (l : List Char) :
    collapseWs (punctToSpace l) = List.intercalate [' '] (wordCharRuns l) := by
  unfold collapseWs pySplit wordCharRuns
  rw [pySplitAux_punctToSpace]

/-- Claim C4 counterexample: the title a_b keeps its underscore under
the source normalizer (Python word characters include the underscore),
while the claim's replace-non-alphanumeric-runs normalization yields
a b; and with two remote issues sharing the normalized title x y z, the
containment fallback assigns the issue recorded last in the title dict
(J-2), not the first remote issue in iteration order (J-1). -/
theorem C4_title_matching_counterexample :
    UserStoryL.normalize_title ⟨"US-1", "a_b"⟩ = "a_b" ∧
    claimNormalizeTitle "a_b" = "a b" ∧
    ("a_b" : String) ≠ "a b" ∧
    dictLookup
        (legacy_match_stories [⟨"US-1", "x"⟩]
          [⟨"J-1", "x y z"⟩, ⟨"J-2", "x y z"⟩]) "US-1" = some "J-2" ∧
    ("J-2" : String) ≠ "J-1" :=
  ⟨rfl, rfl, by decide, rfl, by decide⟩

/-- Claim C4 amended: normalization lower-cases, strips a trailing
(future) parenthetical, and joins the maximal runs of word characters
(letters, digits, underscore) with single spaces; exact
normalized-title match wins immediately, otherwise the fallback takes
the first entry of the normalized-title dict (distinct titles in first
appearance order, each mapped to the last remote issue bearing it)
whose title contains or is contained in the local normalized title; and
local Add login (Future) still matches remote Add Login. -/
theorem C4_title_matching_amended (s idStr kStr : String)
    (dict : List (String × JiraIssueL)) (md : UserStoryL) (j : JiraIssueL)
    (jiras : List JiraIssueL) (k : String) :
    UserStoryL.normalize_title ⟨idStr, s⟩ = amendedNormalizeTitle s ∧
    JiraIssueL.normalize_title ⟨kStr, s⟩ = amendedNormalizeSummary s ∧
    (dictLookup dict md.normalize_title = some j →
      legacyMatchFor dict md = some j) ∧
    (dictLookup dict md.normalize_title = none →
      legacyMatchFor dict md =
        (dict.find? (fun p => subStr md.normalize_title.toList p.1.toList ||
          subStr p.1.toList md.normalize_title.toList)).map (·.2)) ∧
    (dictLookup (pyDict (jiras.map fun j => (j.normalize_title, j))) k =
      jiras.reverse.find? (fun j => j.normalize_title == k)) ∧
    legacy_match_stories [⟨"US-1", "Add login (Future)"⟩]
        [⟨"J-7", "Add Login"⟩] = [("US-1", "J-7")] := by
  refine ⟨?_, ?_, ?_, ?_, ?_, rfl⟩
  · unfold UserStoryL.normalize_title amendedNormalizeTitle
    rw [collapse_punct_eq_runs]
  · unfold JiraIssueL.normalize_title amendedNormalizeSummary
    rw [collapse_punct_eq_runs]
  · intro h; unfold legacyMatchFor; rw [h]
  · intro h; unfold legacyMatchFor findFirstContain; rw [h]
  · rw [dictLookup_pyDict_last]
    rw [← List.map_reverse, List.find?_map]
    rw [Option.map_map]
    simp [Function.comp_def]

/-- Witness for C4's amended theorem: the concrete suffix-insensitive
match, via the exact-match branch applied at the normalized demo
titles. -/
theorem C4_title_matching_amended_witness :
    legacyMatchFor
        (pyDict ([(⟨"J-7", "Add Login"⟩ : JiraIssueL)].map
          fun (j : JiraIssueL) => (j.normalize_title, j)))
        ⟨"US-1", "Add login (Future)"⟩ = some ⟨"J-7", "Add Login"⟩ :=
  (C4_title_matching_amended "x" "US-1" "J-7"
      (pyDict ([(⟨"J-7", "Add Login"⟩ : JiraIssueL)].map
        fun (j : JiraIssueL) => (j.normalize_title, j)))
      ⟨"US-1", "Add login (Future)"⟩ ⟨"J-7", "Add Login"⟩ [] "").2.2.1 rfl

end Md2Jira

namespace Md2Jira

/-! ## Claim C6 -/

/-- Claim C6 counterexample: with an unrecognized target Weird whose
lowercased form already equals the current status, transition_issue
reports success with no transitions instead of the unrecognized-target
failure the claim requires for any other target. -/
theorem C6_transition_counterexample :
    transitionPathFor "Weird" = none ∧
    (transition_issue idApply "weird" "Weird").1 = true ∧
    (transition_issue idApply "weird" "Weird").2.2 = [] :=
  ⟨rfl, rfl, rfl⟩

/-- Every applied step of the traversal was guarded by the re-fetched
status equalling the expected from-status. -/
theorem runTransitionPath_guarded
    (apply : String → String → Option String → String) :
    ∀ (path : List (String × String × Option String)) (status : String)
      (st : AppliedStep), st ∈ (runTransitionPath apply status path).2 →
      st.preStatus = st.fromStatus := by
  intro path
  induction path with
  | nil => intro status st h; simp [runTransitionPath] at h
  | cons step rest ih =>
    intro status st h
    obtain ⟨frm, tid, res⟩ := step
    simp only [runTransitionPath] at h
    by_cases hg : status == frm
    · rw [if_pos hg] at h
      rcases List.mem_cons.mp h with rfl | h'
      · simpa using hg
      · exact ih _ st h'
    · rw [if_neg hg] at h
      exact ih _ st h

/-- Claim C6 amended: the keyword table and guarded traversal are as
claimed (resolved or done selects the three-step path, then progress
the two-step path, then open the one-step path, with each step applied
only when the re-fetched status equals the expected from-status, and
success after traversal exactly when the lowercased target occurs in
the lowercased re-fetched final status); but an unrecognized target
fails only when the current status does not already equal the target
case-insensitively: when it does, the operation reports success
immediately with no transitions, whatever the target. -/
theorem C6_transition_amended
    (apply : String → String → Option String → String)
    (cur target : String) (path : List (String × String × Option String)) :
    ((subStr (String.toList "resolved") (pyLowerStr target).toList = true ∨
        subStr (String.toList "done") (pyLowerStr target).toList = true) →
      transitionPathFor target =
        some [("Analyze", "7", none), ("Open", "4", none),
          ("In Progress", "5", some "Done")]) ∧
    (subStr (String.toList "resolved") (pyLowerStr target).toList = false →
      subStr (String.toList "done") (pyLowerStr target).toList = false →
      subStr (String.toList "progress") (pyLowerStr target).toList = true →
      transitionPathFor target = some [("Analyze", "7", none), ("Open", "4", none)]) ∧
    (subStr (String.toList "resolved") (pyLowerStr target).toList = false →
      subStr (String.toList "done") (pyLowerStr target).toList = false →
      subStr (String.toList "progress") (pyLowerStr target).toList = false →
      subStr (String.toList "open") (pyLowerStr target).toList = true →
      transitionPathFor target = some [("Analyze", "7", none)]) ∧
    (subStr (String.toList "resolved") (pyLowerStr target).toList = false →
      subStr (String.toList "done") (pyLowerStr target).toList = false →
      subStr (String.toList "progress") (pyLowerStr target).toList = false →
      subStr (String.toList "open") (pyLowerStr target).toList = false →
      transitionPathFor target = none) ∧
    (∀ st ∈ (runTransitionPath apply cur path).2,
      st.preStatus = st.fromStatus) ∧
    (pyLowerStr cur = pyLowerStr target →
      transition_issue apply cur target = (true, cur, [])) ∧
    (pyLowerStr cur ≠ pyLowerStr target → transitionPathFor target = none →
      transition_issue apply cur target = (false, cur, [])) ∧
    (pyLowerStr cur ≠ pyLowerStr target → transitionPathFor target = some path →
      (transition_issue apply cur target).1 =
        subStr (pyLowerStr target).toList
          (pyLowerStr (runTransitionPath apply cur path).1).toList ∧
      (transition_issue apply cur target).2.1 =
        (runTransitionPath apply cur path).1 ∧
      (transition_issue apply cur target).2.2 =
        (runTransitionPath apply cur path).2) := by
  have hres : ∀ {target : String},
      subStr (String.toList "resolved") (pyLowerStr target).toList = false →
      subStr (String.toList "done") (pyLowerStr target).toList = false →
      ¬ ((subStr (String.toList "resolved") (pyLowerStr target).toList ||
        subStr (String.toList "done") (pyLowerStr target).toList) = true) := by
    intro target h1 h2
    rw [Bool.or_eq_true]
    rintro (hc | hc)
    · rw [h1] at hc; exact Bool.false_ne_true hc
    · rw [h2] at hc; exact Bool.false_ne_true hc
  refine ⟨?_, ?_, ?_, ?_, runTransitionPath_guarded apply path cur, ?_, ?_, ?_⟩
  · intro h
    unfold transitionPathFor
    rw [if_pos (by rw [Bool.or_eq_true]; exact h)]
  · intro h1 h2 h3
    unfold transitionPathFor
    rw [if_neg (hres h1 h2), if_pos h3]
  · intro h1 h2 h3 h4
    unfold transitionPathFor
    rw [if_neg (hres h1 h2), if_neg (by rw [h3]; exact Bool.false_ne_true),
      if_pos h4]
  · intro h1 h2 h3 h4
    unfold transitionPathFor
    rw [if_neg (hres h1 h2), if_neg (by rw [h3]; exact Bool.false_ne_true),
      if_neg (by rw [h4]; exact Bool.false_ne_true)]
  · intro h
    unfold transition_issue
    rw [if_pos (by simp [h])]
  · intro h hp
    unfold transition_issue
    rw [if_neg (by simp [h]), hp]
  · intro h hp
    unfold transition_issue
    rw [if_neg (by simp [h]), hp]
    exact ⟨rfl, rfl, rfl⟩

/-- Witness for C6's amended theorem on a concrete run: from Analyze
with the workflow state change, targeting Resolved succeeds exactly by
the final-status keyword test. -/
theorem C6_transition_amended_witness :
    (transition_issue demoJiraApply "Analyze" "Resolved").1 =
      subStr (pyLowerStr "Resolved").toList
        (pyLowerStr (runTransitionPath demoJiraApply "Analyze"
          [("Analyze", "7", none), ("Open", "4", none),
            ("In Progress", "5", some "Done")]).1).toList :=
  ((C6_transition_amended demoJiraApply "Analyze" "Resolved"
      [("Analyze", "7", none), ("Open", "4", none),
        ("In Progress", "5", some "Done")]).2.2.2.2.2.2.2
    (by decide) (by decide)).1

end Md2Jira

namespace Md2Jira

/-! ## Claim C7 -/

/-- The error-state invariant is preserved by the SyncResult
operations. -/
theorem applySROps_invariant (ops : List SROp) :
    ∀ r : SyncResult, r.success = r.errors.isEmpty →
      (applySROps r ops).success = (applySROps r ops).errors.isEmpty := by
  induction ops with
  | nil => intro r h; exact h
  | cons op rest ih =>
    intro r h
    simp only [applySROps, List.foldl_cons] at ih ⊢
    apply ih
    cases op with
    | err m =>
      simp [applySROp, SyncResult.add_error]
    | warn m =>
      simpa [applySROp, SyncResult.add_warning] using h

/-- Folding the per-subtask step over a flat key list: every key is
attempted; successes count, reported failures accumulate as errors, and
success survives exactly when no failure was recorded. -/
theorem processKeys_spec (outcome : String → CommandResult) :
    ∀ (keys : List String) (r : SyncResult),
      (keys.foldl (syncStatusStep outcome) r).statuses_updated =
        r.statuses_updated + keys.countP (fun k => (outcome k).success) ∧
      (keys.foldl (syncStatusStep outcome) r).errors =
        r.errors ++ statusFailMsgs outcome keys ∧
      (keys.foldl (syncStatusStep outcome) r).success =
        (r.success && (statusFailMsgs outcome keys).isEmpty) ∧
      (keys.foldl (syncStatusStep outcome) r).warnings = r.warnings := by
  intro keys
  induction keys with
  | nil =>
    intro r
    simp [statusFailMsgs]
  | cons k rest ih =>
    intro r
    simp only [List.foldl_cons]
    obtain ⟨ih1, ih2, ih3, ih4⟩ := ih (syncStatusStep outcome r k)
    have hmsg : statusFailMsgs outcome (k :: rest) =
        (if (outcome k).success then none else (outcome k).error).toList ++
          statusFailMsgs outcome rest := by
      cases hs : (outcome k).success
      · cases he : (outcome k).error <;> simp [statusFailMsgs, hs, he]
      · simp [statusFailMsgs, hs]
    have hcnt : (k :: rest).countP (fun k => (outcome k).success) =
        (if (outcome k).success then 1 else 0) +
          rest.countP (fun k => (outcome k).success) := by
      rw [List.countP_cons]
      cases hs : (outcome k).success
      · simp [hs]
      · simp [hs]; omega
    refine ⟨?_, ?_, ?_, ?_⟩
    · rw [ih1, hcnt]
      unfold syncStatusStep
      cases hs : (outcome k).success
      · simp only [hs, Bool.false_eq_true, if_false]
        cases he : (outcome k).error <;> simp [SyncResult.add_error]
      · simp only [hs, if_true]
        omega
    · rw [ih2, hmsg]
      unfold syncStatusStep
      cases hs : (outcome k).success
      · simp only [hs, Bool.false_eq_true, if_false]
        cases he : (outcome k).error
        · simp
        · simp [SyncResult.add_error]
      · simp only [hs, if_true]
        simp
    · rw [ih3, hmsg]
      unfold syncStatusStep
      cases hs : (outcome k).success
      · simp only [hs, Bool.false_eq_true, if_false]
        cases he : (outcome k).error
        · simp
        · simp [SyncResult.add_error]
      · simp only [hs, if_true]
        simp
    · rw [ih4]
      unfold syncStatusStep
      cases hs : (outcome k).success
      · simp only [hs, Bool.false_eq_true, if_false]
        cases he : (outcome k).error <;> simp [SyncResult.add_error]
      · simp only [hs, if_true]

/-- The nested story/subtask loops of the status phase flatten to the
fold over the eligible key list. -/
theorem sync_statuses_eq_foldl (tracker : String → IssueData)
    (outcome : String → CommandResult) (ms : List (String × String)) :
    ∀ (stories : List StoryRec) (r : SyncResult),
      sync_statuses tracker outcome ms stories r =
        (eligibleStatusSubtasks tracker ms stories).foldl
          (syncStatusStep outcome) r := by
  intro stories
  induction stories with
  | nil => intro r; rfl
  | cons md rest ih =>
    intro r
    unfold sync_statuses eligibleStatusSubtasks at *
    simp only [List.foldl_cons, List.map_cons, List.flatten_cons,
      List.foldl_append]
    cases hl : dictLookup ms md.id with
    | none => simpa using ih r
    | some issue_key =>
      cases hc : md.status.is_complete
      · simp only [Bool.false_eq_true, if_false]
        simpa using ih r
      · simp only [if_true]
        rw [List.foldl_map]
        exact ih _

/-- Claim C7: a SyncResult reachable from a fresh result by add_error /
add_warning has success true exactly when its error list is empty;
add_error appends and flips success off, add_warning changes neither;
and the status phase attempts every eligible subtask, counting the
successes and recording every reported failure as an error while
continuing, never aborting early. -/
theorem C7_sync_result_error_semantics (r : SyncResult) (e w : String)
    (dry : Bool) (ops : List SROp) (tracker : String → IssueData)
    (outcome : String → CommandResult) (ms : List (String × String))
    (stories : List StoryRec) :
    ((r.add_error e).errors = r.errors ++ [e] ∧
      (r.add_error e).success = false) ∧
    ((r.add_warning w).success = r.success ∧
      (r.add_warning w).errors = r.errors ∧
      (r.add_warning w).warnings = r.warnings ++ [w]) ∧
    (({ dry_run := dry } : SyncResult).success = true ∧
      ({ dry_run := dry } : SyncResult).errors = []) ∧
    ((applySROps { dry_run := dry } ops).success =
      (applySROps { dry_run := dry } ops).errors.isEmpty) ∧
    ((sync_statuses tracker outcome ms stories r).statuses_updated =
        r.statuses_updated +
          (eligibleStatusSubtasks tracker ms stories).countP
            (fun k => (outcome k).success) ∧
      (sync_statuses tracker outcome ms stories r).errors =
        r.errors ++
          statusFailMsgs outcome (eligibleStatusSubtasks tracker ms stories) ∧
      (sync_statuses tracker outcome ms stories r).success =
        (r.success &&
          (statusFailMsgs outcome
            (eligibleStatusSubtasks tracker ms stories)).isEmpty) ∧
      (sync_statuses tracker outcome ms stories r).warnings = r.warnings) := by
  refine ⟨⟨rfl, rfl⟩, ⟨rfl, rfl, rfl⟩, ⟨rfl, rfl⟩, ?_, ?_⟩
  · exact applySROps_invariant ops _ rfl
  · rw [sync_statuses_eq_foldl]
    exact processKeys_spec outcome _ r

end Md2Jira

namespace Md2Jira

/-! ## Claim C8 -/

/-- Claim C8: whatever the per-block story parser does — succeed, return
nothing, or raise — _parse_all_stories is total: the stories collected
are exactly those of the non-raising non-empty blocks in order, each
raising block contributes exactly one logged warning, and parse_stories
over readable text always returns ok; it fails only for an unreadable
source, with the read error. -/
theorem C8_parser_error_tolerance {α : Type}
    (parseStory : StoryBlock → Except String (Option α))
    (toBlocks : String → List StoryBlock) (content msg : String)
    (blocks : List StoryBlock) :
    (_parse_all_stories parseStory blocks).1 =
      blocks.filterMap (fun b =>
        match parseStory b with
        | .ok (some s) => some s
        | _ => none) ∧
    (_parse_all_stories parseStory blocks).2 =
      blocks.filterMap (fun b =>
        match parseStory b with
        | .error e => some ("Failed to parse: " ++ e)
        | _ => none) ∧
    parse_stories parseStory toBlocks (.text content) =
      .ok (_parse_all_stories parseStory (toBlocks content)) ∧
    parse_stories parseStory toBlocks (.unreadable msg) = .error msg := by
  refine ⟨?_, ?_, rfl, rfl⟩
  · induction blocks with
    | nil => rfl
    | cons b rest ih =>
      simp only [_parse_all_stories, List.filterMap_cons]
      cases hb : parseStory b with
      | error e => simpa using ih
      | ok o =>
        cases o with
        | none => simpa using ih
        | some s => simpa using ih
  · induction blocks with
    | nil => rfl
    | cons b rest ih =>
      simp only [_parse_all_stories, List.filterMap_cons]
      cases hb : parseStory b with
      | error e => simpa using ih
      | ok o =>
        cases o with
        | none => simpa using ih
        | some s => simpa using ih

end Md2Jira

namespace Md2Jira

/-! ## Claim C9 -/

/-- The doc wrapper always yields a version-1 doc with nonempty
content. -/
theorem mk_doc_shaped (c : List Adf) : isDocShaped (ADFFormatter.mk_doc c) := by
  unfold ADFFormatter.mk_doc isDocShaped
  by_cases h : c.isEmpty
  · rw [if_pos h]; exact ⟨rfl, by simp⟩
  · rw [if_neg h]
    exact ⟨rfl, by simpa [List.isEmpty_iff] using h⟩

theorem dropWhile_of_all {p : Char → Bool} {l : List Char}
    (h : l.all p = true) : l.dropWhile p = [] := by
  induction l with
  | nil => rfl
  | cons c t ih =>
    simp only [List.all_cons, Bool.and_eq_true] at h
    simp [List.dropWhile, h.1, ih h.2]

theorem pyStrip_of_all_ws {l : List Char} (h : l.all isWs = true) :
    ADFFormatter.pyStrip l = [] := by
  unfold ADFFormatter.pyStrip
  rw [dropWhile_of_all h]
  rfl

/-- Splitting an all-whitespace text on newlines yields all-whitespace
lines. -/
theorem splitNlAux_all_ws :
    ∀ (l cur : List Char), l.all isWs = true → cur.all isWs = true →
      ∀ part ∈ splitNlAux cur l, part.all isWs = true := by
  intro l
  induction l with
  | nil =>
    intro cur _ hcur part hp
    simp only [splitNlAux, List.mem_singleton] at hp
    subst hp
    simpa using hcur
  | cons c t ih =>
    intro cur hl hcur part hp
    simp only [List.all_cons, Bool.and_eq_true] at hl
    simp only [splitNlAux] at hp
    by_cases hc : c = '\n'
    · rw [if_pos hc] at hp
      rcases List.mem_cons.mp hp with rfl | hp'
      · simpa using hcur
      · exact ih [] hl.2 rfl part hp'
    · rw [if_neg hc] at hp
      exact ih (c :: cur) hl.2 (by simp [hcur, hl.1]) part hp

/-- A blank line leaves the empty formatting state unchanged. -/
theorem format_text_line_blank {line : List Char}
    (h : line.all isWs = true) :
    ADFFormatter.format_text_line ⟨[], none, none⟩ line =
      some ⟨[], none, none⟩ := by
  unfold ADFFormatter.format_text_line
  rw [if_pos (by rw [pyStrip_of_all_ws h]; rfl)]
  rfl

theorem foldlM_blank_lines :
    ∀ (lines : List (List Char)),
      (∀ line ∈ lines, line.all isWs = true) →
      lines.foldlM ADFFormatter.format_text_line ⟨[], none, none⟩ =
        some ⟨[], none, none⟩ := by
  intro lines
  induction lines with
  | nil => intro _; rfl
  | cons line rest ih =>
    intro h
    rw [List.foldlM_cons, format_text_line_blank (h line (by simp))]
    exact ih (fun l hl => h l (List.mem_cons_of_mem _ hl))

/-- Claim C9: every document any public formatter method returns is a
version-1 doc node with nonempty content, and empty or whitespace-only
text formats to the single-space paragraph document. -/
theorem C9_formatter_doc_invariant (text s : String) (level : Nat)
    (commits : List CommitRef) (items : List String) (ordered : Bool)
    (tasks : List (String × Bool)) (d : Adf) :
    (ADFFormatter.format_text text = some d → isDocShaped d) ∧
    isDocShaped (ADFFormatter.format_commits_table commits) ∧
    isDocShaped (ADFFormatter.format_heading s level) ∧
    isDocShaped (ADFFormatter.format_list items ordered) ∧
    isDocShaped (ADFFormatter.format_task_list tasks) ∧
    (text.toList.all isWs = true →
      ADFFormatter.format_text text = some singleSpaceDoc) := by
  refine ⟨?_, mk_doc_shaped _, mk_doc_shaped _, mk_doc_shaped _,
    mk_doc_shaped _, ?_⟩
  · intro h
    unfold ADFFormatter.format_text at h
    cases hr : (splitNl text.toList).foldlM ADFFormatter.format_text_line
        ⟨[], none, none⟩ with
    | none => rw [hr] at h; simp at h
    | some st =>
      rw [hr] at h
      have h2 : ADFFormatter.mk_doc (ADFFormatter.flushCur st) = d := by
        simpa using h
      rw [← h2]
      exact mk_doc_shaped _
  · intro h
    unfold ADFFormatter.format_text
    rw [foldlM_blank_lines (splitNl text.toList)
      (fun line hl => splitNlAux_all_ws text.toList [] h rfl line hl)]
    rfl

/-- Witness for C9 at concrete inputs: a one-line text formats to a
shaped doc, and a whitespace-only text formats to the single-space
document. -/
theorem C9_formatter_doc_invariant_witness :
    isDocShaped (Adf.doc 1 [Adf.paragraph [Adf.text "x" []]]) ∧
    ADFFormatter.format_text " \n " = some singleSpaceDoc :=
  ⟨(C9_formatter_doc_invariant "x" "t" 2 [] [] false [] _).1 rfl,
    (C9_formatter_doc_invariant " \n " "t" 2 [] [] false []
      singleSpaceDoc).2.2.2.2.2 (by decide)⟩

end Md2Jira

namespace Md2Jira

/-! ## Claim C10 -/

theorem find?_map_subUpdate (d : List (String × List Nat)) (ty : String)
    (hid : Nat) :
    (d.map fun p => if p.1 == ty then (p.1, p.2 ++ [hid]) else p).find?
        (fun p => p.1 == ty) =
      (d.find? (fun p => p.1 == ty)).map (fun p => (p.1, p.2 ++ [hid])) := by
  induction d with
  | nil => rfl
  | cons p t ih =>
    simp only [List.map_cons]
    cases hp : (p.1 == ty) with
    | true =>
      rw [if_pos rfl]
      rw [List.find?_cons_of_pos _ (by simpa using hp),
        List.find?_cons_of_pos _ (by simpa using hp)]
      rfl
    | false =>
      rw [if_neg (by simp)]
      rw [List.find?_cons_of_neg _ (by simp [hp]),
        List.find?_cons_of_neg _ (by simp [hp])]
      exact ih

theorem find?_map_subUpdate_ne (d : List (String × List Nat))
    (ty ty2 : String) (hid : Nat) (h : ty2 ≠ ty) :
    (d.map fun p => if p.1 == ty then (p.1, p.2 ++ [hid]) else p).find?
        (fun p => p.1 == ty2) =
      d.find? (fun p => p.1 == ty2) := by
  induction d with
  | nil => rfl
  | cons p t ih =>
    simp only [List.map_cons]
    cases hp : (p.1 == ty) with
    | true =>
      have hp1 : p.1 = ty := by simpa using hp
      have hpred : (p.1 == ty2) = false := by
        rw [hp1, beq_eq_false_iff_ne]
        exact fun hh => h hh.symm
      rw [if_pos rfl]
      rw [List.find?_cons_of_neg _ (by simp [hpred]),
        List.find?_cons_of_neg _ (by simp [hpred])]
      exact ih
    | false =>
      rw [if_neg (by simp)]
      cases hq : (p.1 == ty2) with
      | true =>
        rw [List.find?_cons_of_pos _ (by simpa using hq),
          List.find?_cons_of_pos _ (by simpa using hq)]
      | false =>
        rw [List.find?_cons_of_neg _ (by simp [hq]),
          List.find?_cons_of_neg _ (by simp [hq])]
        exact ih

/-- subscribe appends the handler to its type's list. -/
theorem handlersFor_subscribe_self (bus : EventBus) (ty : String) (hid : Nat) :
    (bus.subscribe ty hid).handlersFor ty = bus.handlersFor ty ++ [hid] := by
  unfold EventBus.subscribe EventBus.handlersFor dictLookup
  by_cases ha : bus.handlers.any (fun p => p.1 == ty)
  · rw [if_pos ha]
    simp only
    rw [find?_map_subUpdate]
    cases hf : bus.handlers.find? (fun p => p.1 == ty) with
    | none =>
      exfalso
      obtain ⟨x, hx, hpx⟩ := List.any_eq_true.mp ha
      rw [List.find?_eq_none] at hf
      exact hf x hx hpx
    | some p => rfl
  · rw [if_neg ha]
    simp only
    have hnone : bus.handlers.find? (fun p => p.1 == ty) = none := by
      rw [List.find?_eq_none]
      intro x hx hpx
      exact ha (List.any_eq_true.mpr ⟨x, hx, hpx⟩)
    rw [List.find?_append, hnone]
    simp [List.find?]

/-- subscribe leaves every other type's handlers unchanged. -/
theorem handlersFor_subscribe_ne (bus : EventBus) (ty ty2 : String)
    (hid : Nat) (h : ty2 ≠ ty) :
    (bus.subscribe ty hid).handlersFor ty2 = bus.handlersFor ty2 := by
  unfold EventBus.subscribe EventBus.handlersFor dictLookup
  by_cases ha : bus.handlers.any (fun p => p.1 == ty)
  · rw [if_pos ha]
    simp only
    rw [find?_map_subUpdate_ne _ _ _ _ h]
  · rw [if_neg ha]
    simp only
    rw [List.find?_append]
    cases hf : bus.handlers.find? (fun p => p.1 == ty2) with
    | some p => rfl
    | none =>
      have : (((ty, [hid]) : String × List Nat).1 == ty2) = false := by
        simp only [beq_eq_false_iff_ne]
        exact fun hh => h hh.symm
      simp [List.find?, this]

/-- The history append is not among the handler invocations. -/
theorem append_not_mem_invokes (e : EventRec) (hs : List Nat) :
    BusAction.append e ∉ hs.map (fun h => BusAction.invoke h e) := by
  intro hmem
  obtain ⟨h, _, habs⟩ := List.mem_map.mp hmem
  exact BusAction.noConfusion habs

/-- Claim C10: publish appends the event to the history exactly once,
as the first action, before any handler and even with no subscribers;
the exact-type handlers run before the catch-all DomainEvent handlers,
each group in registration order (subscribe appends to its own type's
list and touches no other); and get_history hands out a copy, so
appending through the returned reference leaves the bus's recorded
history unchanged. -/
theorem C10_event_bus_semantics (bus : EventBus) (e : EventRec)
    (ty ty2 : String) (hid : Nat) (store : ListStore) (ref : Nat)
    (ev : EventRec) :
    ((bus.publish e).1.history = bus.history ++ [e]) ∧
    ((bus.publish e).1.handlers = bus.handlers) ∧
    ((bus.publish e).2 =
      .append e :: (((bus.handlersFor e.ty).map fun h => .invoke h e) ++
        ((bus.handlersFor "DomainEvent").map fun h => .invoke h e))) ∧
    ((bus.publish e).2.head? = some (.append e)) ∧
    ((bus.publish e).2.count (.append e) = 1) ∧
    (bus.handlersFor e.ty = [] → bus.handlersFor "DomainEvent" = [] →
      (bus.publish e).2 = [.append e]) ∧
    ((bus.subscribe ty hid).handlersFor ty = bus.handlersFor ty ++ [hid]) ∧
    (ty2 ≠ ty →
      (bus.subscribe ty hid).handlersFor ty2 = bus.handlersFor ty2) ∧
    (ref < store.length →
      ((get_history store ref).1.getD (get_history store ref).2 [] =
        store.getD ref []) ∧
      ((storeAppendAt (get_history store ref).1 (get_history store ref).2
        ev).getD ref [] = store.getD ref [])) := by
  refine ⟨rfl, rfl, rfl, rfl, ?_, ?_, handlersFor_subscribe_self bus ty hid,
    handlersFor_subscribe_ne bus ty ty2 hid, ?_⟩
  · show ((BusAction.append e ::
      (((bus.handlersFor e.ty).map fun h => BusAction.invoke h e) ++
        ((bus.handlersFor "DomainEvent").map
          fun h => BusAction.invoke h e))).count (BusAction.append e)) = 1
    rw [List.count_cons_self, List.count_eq_zero.mpr ?_]
    intro hmem
    rcases List.mem_append.mp hmem with hm | hm
    · exact append_not_mem_invokes e _ hm
    · exact append_not_mem_invokes e _ hm
  · intro h1 h2
    show BusAction.append e ::
        (((bus.handlersFor e.ty).map fun h => BusAction.invoke h e) ++
          ((bus.handlersFor "DomainEvent").map
            fun h => BusAction.invoke h e)) = [BusAction.append e]
    rw [h1, h2]
    rfl
  · intro h
    unfold get_history storeAppendAt
    constructor
    · simp only [List.getD]
      rw [List.get?_concat_length]
      rfl
    · have hne : store.length ≠ ref := Nat.ne_of_gt h
      simp only [List.getD]
      rw [List.get?_set_ne _ _ hne]
      rw [List.get?_append h]

/-- Witness for C10 at a concrete bus and store: subscribing a second
handler for a different type leaves the first type's handlers alone,
and mutating the copied history leaves the stored history of one
recorded event unchanged. -/
theorem C10_event_bus_semantics_witness :
    ((EventBus.mk [("StoryMatched", [0])] []).subscribe "SyncStarted"
        1).handlersFor "StoryMatched" =
      (EventBus.mk [("StoryMatched", [0])] []).handlersFor "StoryMatched" ∧
    (storeAppendAt
        (get_history [[EventRec.mk "StoryMatched" 0]] 0).1
        (get_history [[EventRec.mk "StoryMatched" 0]] 0).2
        (EventRec.mk "SyncStarted" 1)).getD 0 [] =
      [[EventRec.mk "StoryMatched" 0]].getD 0 [] :=
  ⟨(C10_event_bus_semantics (EventBus.mk [("StoryMatched", [0])] [])
      (EventRec.mk "StoryMatched" 0) "SyncStarted" "StoryMatched" 1
      [[EventRec.mk "StoryMatched" 0]] 0
      (EventRec.mk "SyncStarted" 1)).2.2.2.2.2.2.2.1 (by decide),
    ((C10_event_bus_semantics (EventBus.mk [("StoryMatched", [0])] [])
      (EventRec.mk "StoryMatched" 0) "SyncStarted" "StoryMatched" 1
      [[EventRec.mk "StoryMatched" 0]] 0
      (EventRec.mk "SyncStarted" 1)).2.2.2.2.2.2.2.2 (by decide)).2⟩

end Md2Jira
